import Mathlib

/-!
Verification of core AIStore control-plane components against their source:
transactional bucket operations (ais/prxtxn.go), the xaction registry
(xaction/registry.go), the download jogger (downloader/jogger.go) and the
FQN/workfile resolver (cluster/fqn.go).

Shallow embedding conventions:
* Go maps are modelled as association lists with first-match lookup; the
  mutation helpers mirror the Go map operations key by key.
* Broadcast RPCs return their per-target outcomes as a list in channel-arrival
  order; `none` is a successful response, `some msg` an error.
* Side effects that do not influence the verified properties (logging,
  metasync fan-out, semaphores) are dropped; every branch of the Go control
  flow is kept.
-/

set_option maxHeartbeats 1000000

namespace AIStore

/-- Modelled from the spec: cmn.Bck (not under src/). Spec section 3: a bucket
is keyed by provider, namespace and name. -/
structure Bck where
  name : String
  provider : String
  ns : String
deriving DecidableEq

/-- Modelled from the spec: cmn.Bck.IsEmpty (not under src/): a bucket key with
all components empty. -/
def Bck.isEmpty (b : Bck) : Bool :=
  b.name == "" && b.provider == "" && b.ns == ""

/-- Modelled from the spec: cmn.Bck.Equal (not under src/): component-wise
equality of the bucket key. -/
def Bck.equal (a b : Bck) : Bool :=
  decide (a = b)

/-- Mirror (n-way replication) section of the bucket properties
(spec section 3: mirror{enabled, copies}). -/
structure MirrorConf where
  enabled : Bool
  copies : Int
deriving DecidableEq

/-- Erasure-coding section of the bucket properties
(spec section 3: ec{enabled, data_slices, parity_slices}). -/
structure ECConf where
  enabled : Bool
  dataSlices : Int
  paritySlices : Int
deriving DecidableEq

/-- Bucket properties; only the fields the verified operations touch are kept
(mirror, ec, and the renamed marker used by rename-bucket). -/
structure BucketProps where
  mirror : MirrorConf
  ec : ECConf
  renamed : String
deriving DecidableEq

/-- BucketProps.Clone: a deep copy; a value copy in the embedding. -/
def BucketProps.clone (p : BucketProps) : BucketProps := p

/-- Modelled from the spec: cmn.DefaultBucketProps (not under src/): fresh
properties with mirroring and EC disabled. -/
def defaultBucketProps : BucketProps :=
  { mirror := { enabled := false, copies := 1 }
    ec := { enabled := false, dataSlices := 0, paritySlices := 0 }
    renamed := "" }

/-- cmn.ActRenameLB, the action tag stored in the Renamed property of a
renamed source bucket. -/
def actRenameLB : String := "renamelb"

/-- Map lookup on the bucket table (first matching key). -/
def getB : List (Bck × BucketProps) → Bck → Option BucketProps
  | [], _ => none
  | kv :: rest, b => if kv.fst = b then some kv.snd else getB rest b

/-- Map assignment on the bucket table (upsert, Go map semantics). -/
def setB : List (Bck × BucketProps) → Bck → BucketProps → List (Bck × BucketProps)
  | [], b, p => [(b, p)]
  | kv :: rest, b, p => if kv.fst = b then (b, p) :: rest else kv :: setB rest b p

/-- Map deletion on the bucket table. -/
def delB : List (Bck × BucketProps) → Bck → List (Bck × BucketProps)
  | [], _ => []
  | kv :: rest, b => if kv.fst = b then rest else kv :: delB rest b

/-- Modelled from the spec: the bucket metadata BMD (ais/bucketmeta.go is not
under src/). Spec section 3: a monotonically versioned map of buckets whose
version strictly increases on every committed mutation. -/
structure BMD where
  version : Int
  buckets : List (Bck × BucketProps)
deriving DecidableEq

/-- bucketMD.Get: look a bucket up in the BMD. -/
def BMD.Get (m : BMD) (b : Bck) : Option BucketProps :=
  getB m.buckets b

/-- Modelled from the spec: bucketMD.add (not under src/): create iff not
present, bumping the version; returns whether the bucket was added. -/
def BMD.add (m : BMD) (b : Bck) (p : BucketProps) : BMD × Bool :=
  match getB m.buckets b with
  | some _ => (m, false)
  | none => ({ version := m.version + 1, buckets := m.buckets ++ [(b, p)] }, true)

/-- Modelled from the spec: bucketMD.set (not under src/): overwrite the
properties of a bucket, bumping the version. -/
def BMD.set (m : BMD) (b : Bck) (p : BucketProps) : BMD :=
  { version := m.version + 1, buckets := setB m.buckets b p }

/-- Modelled from the spec: bucketMD.del (not under src/): destroy iff present,
bumping the version; returns whether the bucket was deleted. -/
def BMD.del (m : BMD) (b : Bck) : BMD × Bool :=
  match getB m.buckets b with
  | some _ => ({ version := m.version + 1, buckets := delB m.buckets b }, true)
  | none => (m, false)

/-- bucketMD.clone: a copy-on-write clone; a value copy in the embedding. -/
def BMD.clone (m : BMD) : BMD := m

/-- Errors surfaced by the proxy transactions (cmn error constructors and
errors forwarded from targets). -/
inductive AisErr where
  | bucketAlreadyExists (b : Bck)
  | bucketDoesNotExist (b : Bck)
  | bucketIsBusy (b : Bck)
  | cannotStartRebalance (msg : String)
  | invalidNCopies (msg : String)
  | propsErr (msg : String)
  | tgt (msg : String)
deriving DecidableEq

/-- The three verbs of the transactional REST protocol. -/
inductive TxnAct where
  | beginAct
  | abortAct
  | commitAct
deriving DecidableEq

/-- One broadcast POST to /v1/txn/... recorded by the embedding. -/
structure Bcast where
  path : String
  act : TxnAct
deriving DecidableEq

/-- The transaction URL path prepared by prepTxnClient:
URLPath(cmn.Version, cmn.Txn, bck.Name). -/
def txnPath (b : Bck) : String := "/v1/txn/" ++ b.name

/-- The first error among the per-target results of a broadcast, in
channel-arrival order; mirrors the `for res := range results` loops that
return on the first `res.err != nil`. -/
def firstErr : List (Option String) → Option String
  | [] => none
  | some e :: _ => some e
  | none :: rest => firstErr rest

/-- undoCreateBucket (ais/prxtxn.go): rollback of create-bucket; deletes the
bucket from a clone of the BMD, keeping the BMD as is when the bucket has
already disappeared. -/
def undoCreateBucket (bmd : BMD) (bck : Bck) : BMD :=
  let deleted := bmd.clone.del bck
  if deleted.snd then deleted.fst else bmd

/-- createBucket (ais/prxtxn.go lines 47-109): check non-existence, begin
broadcast, add to a BMD clone, metasync, commit broadcast, undo on commit
failure. Returns the result, the final BMD and the broadcast log. -/
def createBucket (bmd : BMD) (bck : Bck) (bucketProps : BucketProps)
    (beginRes commitRes : List (Option String)) :
    Except AisErr Unit × BMD × List Bcast :=
  match bmd.Get bck with
  | some _ => (Except.error (AisErr.bucketAlreadyExists bck), bmd, [])
  | none =>
    let beginB := [Bcast.mk (txnPath bck) TxnAct.beginAct]
    match firstErr beginRes with
    | some e =>
      (Except.error (AisErr.tgt e), bmd,
        beginB ++ [Bcast.mk (txnPath bck) TxnAct.abortAct])
    | none =>
      let added := bmd.clone.add bck bucketProps
      let bmd1 := added.fst
      let log := beginB ++ [Bcast.mk (txnPath bck) TxnAct.commitAct]
      match firstErr commitRes with
      | some e => (Except.error (AisErr.tgt e), undoCreateBucket bmd1 bck, log)
      | none => (Except.ok (), bmd1, log)

/-- Modelled from the spec: proxyrunner.parseNCopies (not under src/) parses
the requested replica count from the action message; the spec requires
mirror.copies >= 1 and states that makencopies(b, 1) is not an error. -/
def parseNCopies (value : Int) : Except AisErr Int :=
  if value < 1 then Except.error (AisErr.invalidNCopies "invalid copies value")
  else Except.ok value

/-- undoUpdateCopies (ais/prxtxn.go): rollback of make-n-copies; restores the
previous Mirror.Copies and Mirror.Enabled on a clone of the BMD. -/
def undoUpdateCopies (bmd : BMD) (bck : Bck) (copies : Int) (enabled : Bool) : BMD :=
  match bmd.clone.Get bck with
  | none => bmd
  | some nprops =>
    let bprops := { nprops.clone with mirror := { enabled := enabled, copies := copies } }
    bmd.clone.set bck bprops

/-- makeNCopies (ais/prxtxn.go lines 139-203): parse the copies value, confirm
existence, begin broadcast, update Mirror on a BMD clone, metasync, commit
broadcast, undo on commit failure. -/
def makeNCopies (bmd : BMD) (bck : Bck) (value : Int)
    (beginRes commitRes : List (Option String)) :
    Except AisErr Unit × BMD × List Bcast :=
  match parseNCopies value with
  | Except.error e => (Except.error e, bmd, [])
  | Except.ok copies =>
    match bmd.Get bck with
    | none => (Except.error (AisErr.bucketDoesNotExist bck), bmd, [])
    | some _ =>
      let beginB := [Bcast.mk (txnPath bck) TxnAct.beginAct]
      match firstErr beginRes with
      | some e =>
        (Except.error (AisErr.tgt e), bmd,
          beginB ++ [Bcast.mk (txnPath bck) TxnAct.abortAct])
      | none =>
        match bmd.clone.Get bck with
        | none =>
          -- cmn.Assert(present): unreachable, the bucket was just looked up
          (Except.error (AisErr.tgt "assertion failed"), bmd, beginB)
        | some bprops =>
          let nprops := { bprops.clone with
                          mirror := { enabled := decide (copies > 1), copies := copies } }
          let bmd1 := bmd.clone.set bck nprops
          let log := beginB ++ [Bcast.mk (txnPath bck) TxnAct.commitAct]
          match firstErr commitRes with
          | some e =>
            (Except.error (AisErr.tgt e),
              undoUpdateCopies bmd1 bck bprops.mirror.copies bprops.mirror.enabled, log)
          | none => (Except.ok (), bmd1, log)

/-- The action carried by a set-bucket-props request: cmn.ActSetBprops or
cmn.ActResetBprops. -/
inductive SetPropsAct where
  | setBprops
  | resetBprops
deriving DecidableEq

/-- Modelled from the spec: BucketProps.Validate (not under src/). Spec
section 4.5: mirror.copies must be at least 2 when mirroring is enabled. -/
def BucketProps.validate (p : BucketProps) : Option String :=
  if p.mirror.enabled && decide (p.mirror.copies < 2) then some "invalid mirror copies"
  else none

/-- makeNprops (ais/prxtxn.go lines 602-633): clone the current properties,
apply the patch, reject EC reconfiguration once enabled, default EC slice
counts, adjust mirror copies/enabled, then validate. The patch stands for
BucketPropsToUpdate plus Apply (current_props merged with the patch, per the
spec). -/
def makeNprops (bprops : BucketProps) (patch : BucketProps → BucketProps)
    (cfgMirrorCopies : Int) : Except String BucketProps :=
  let n0 := patch bprops.clone
  if bprops.ec.enabled && n0.ec.enabled && !(decide (bprops.ec = n0.ec)) then
    Except.error "once enabled, EC configuration can be only disabled but cannot be changed"
  else
    let n1 :=
      if !(bprops.ec.enabled && n0.ec.enabled) && n0.ec.enabled then
        { n0 with ec := { n0.ec with
            dataSlices := if n0.ec.dataSlices = 0 then 1 else n0.ec.dataSlices
            paritySlices := if n0.ec.paritySlices = 0 then 1 else n0.ec.paritySlices } }
      else n0
    let n2 :=
      if !bprops.mirror.enabled && n1.mirror.enabled then
        (if n1.mirror.copies = 1 then
          { n1 with mirror := { n1.mirror with copies := max cfgMirrorCopies 2 } }
        else n1)
      else if n1.mirror.copies = 1 then
        { n1 with mirror := { n1.mirror with enabled := false } }
      else n1
    match n2.validate with
    | some e => Except.error e
    | none => Except.ok n2

/-- setBucketProps (ais/prxtxn.go lines 206-279): confirm existence, compute
the new properties (makeNprops for set, defaults for reset), begin broadcast,
recompute and store the new properties on a BMD clone, metasync, commit
broadcast (whose per-target outcome the source discards). -/
def setBucketProps (bmd : BMD) (bck : Bck) (act : SetPropsAct)
    (patch : BucketProps → BucketProps) (cfgMirrorCopies : Int)
    (beginRes : List (Option String)) :
    Except AisErr Unit × BMD × List Bcast :=
  match bmd.Get bck with
  | none => (Except.error (AisErr.bucketDoesNotExist bck), bmd, [])
  | some bprops0 =>
    let npropsE : Except String BucketProps :=
      match act with
      | SetPropsAct.setBprops => makeNprops bprops0 patch cfgMirrorCopies
      | SetPropsAct.resetBprops => Except.ok defaultBucketProps
    match npropsE with
    | Except.error e => (Except.error (AisErr.propsErr e), bmd, [])
    | Except.ok _ =>
      let beginB := [Bcast.mk (txnPath bck) TxnAct.beginAct]
      match firstErr beginRes with
      | some e =>
        (Except.error (AisErr.tgt e), bmd,
          beginB ++ [Bcast.mk (txnPath bck) TxnAct.abortAct])
      | none =>
        match bmd.clone.Get bck with
        | none =>
          -- cmn.Assert(present): unreachable, existence was just confirmed
          (Except.error (AisErr.tgt "assertion failed"), bmd, beginB)
        | some bprops =>
          match (match act with
                 | SetPropsAct.setBprops => makeNprops bprops patch cfgMirrorCopies
                 | SetPropsAct.resetBprops => Except.ok defaultBucketProps) with
          | Except.error e =>
            -- cmn.AssertNoErr: unreachable, same computation succeeded above
            (Except.error (AisErr.propsErr e), bmd, beginB)
          | Except.ok nprops =>
            (Except.ok (), bmd.clone.set bck nprops,
              beginB ++ [Bcast.mk (txnPath bck) TxnAct.commitAct])

/-- renameBucket (ais/prxtxn.go lines 282-381): check that a rebalance may
start, try-lock both bucket names, confirm source existence and destination
non-existence, begin broadcast, then on a BMD clone add the destination with
a clone of the source properties and mark the source Renamed, bump the RMD
and commit (whose per-target outcome the source discards). Returns the
result, the final BMD, the broadcast log and the RMD version. -/
def renameBucket (bmd : BMD) (rmdVersion : Int) (bckFrom bckTo : Bck)
    (canStartRebalance : Option String) (tryLockFrom tryLockTo : Bool)
    (beginRes : List (Option String)) :
    Except AisErr Unit × BMD × List Bcast × Int :=
  match canStartRebalance with
  | some e => (Except.error (AisErr.cannotStartRebalance e), bmd, [], rmdVersion)
  | none =>
    if !tryLockFrom then
      (Except.error (AisErr.bucketIsBusy bckFrom), bmd, [], rmdVersion)
    else if !tryLockTo then
      (Except.error (AisErr.bucketIsBusy bckTo), bmd, [], rmdVersion)
    else
      match bmd.Get bckFrom with
      | none => (Except.error (AisErr.bucketDoesNotExist bckFrom), bmd, [], rmdVersion)
      | some _ =>
        match bmd.Get bckTo with
        | some _ => (Except.error (AisErr.bucketAlreadyExists bckTo), bmd, [], rmdVersion)
        | none =>
          let beginB := [Bcast.mk (txnPath bckFrom) TxnAct.beginAct]
          match firstErr beginRes with
          | some e =>
            (Except.error (AisErr.tgt e), bmd,
              beginB ++ [Bcast.mk (txnPath bckFrom) TxnAct.abortAct], rmdVersion)
          | none =>
            match bmd.clone.Get bckFrom with
            | none =>
              -- cmn.Assert(present): unreachable, existence was just confirmed
              (Except.error (AisErr.tgt "assertion failed"), bmd, beginB, rmdVersion)
            | some bprops =>
              let fromProps := bprops.clone
              let toProps := bprops.clone
              let added := bmd.clone.add bckTo toProps
              let fromProps1 := { fromProps with renamed := actRenameLB }
              let bmd2 := added.fst.set bckFrom fromProps1
              (Except.ok (), bmd2,
                beginB ++ [Bcast.mk (txnPath bckFrom) TxnAct.commitAct], rmdVersion + 1)

/-- copyBucket (ais/prxtxn.go lines 421-501): try-read-lock the source,
try-lock the destination, confirm source existence, begin broadcast, create
the destination in a BMD clone only when absent, commit (whose per-target
outcome the source discards). -/
def copyBucket (bmd : BMD) (bckFrom bckTo : Bck)
    (tryRLockFrom tryLockTo : Bool) (beginRes : List (Option String)) :
    Except AisErr Unit × BMD × List Bcast :=
  if !tryRLockFrom then (Except.error (AisErr.bucketIsBusy bckFrom), bmd, [])
  else if !tryLockTo then (Except.error (AisErr.bucketIsBusy bckTo), bmd, [])
  else
    match bmd.Get bckFrom with
    | none => (Except.error (AisErr.bucketDoesNotExist bckFrom), bmd, [])
    | some _ =>
      let beginB := [Bcast.mk (txnPath bckFrom) TxnAct.beginAct]
      match firstErr beginRes with
      | some e =>
        (Except.error (AisErr.tgt e), bmd,
          beginB ++ [Bcast.mk (txnPath bckFrom) TxnAct.abortAct])
      | none =>
        match bmd.clone.Get bckFrom with
        | none =>
          -- cmn.Assert(present): unreachable, existence was just confirmed
          (Except.error (AisErr.tgt "assertion failed"), bmd, beginB)
        | some bprops =>
          let bmd1 :=
            match bmd.clone.Get bckTo with
            | some _ => bmd.clone
            | none => (bmd.clone.add bckTo bprops.clone).fst
          (Except.ok (), bmd1,
            beginB ++ [Bcast.mk (txnPath bckFrom) TxnAct.commitAct])

/-- Modelled from the spec: the xaction type table cmn.XactsMeta (not under
src/). Spec section 3: an xaction is either global, per-bucket or a task. -/
inductive XactType where
  | globalX
  | bckX
  | taskX
deriving DecidableEq

/-- A registry entry as the registry observes it through baseEntry/cmn.Xact:
id, kind, bucket and the end-time in unix nanoseconds (0 while running,
cmn.XactBase.Finished). -/
structure Entry where
  id : String
  kind : String
  bck : Bck
  eutime : Int
deriving DecidableEq

/-- cmn.XactBase.Finished: the end timestamp has been stored. -/
def Entry.finished (e : Entry) : Bool := decide (e.eutime ≠ 0)

/-- XactQuery (xaction/registry.go): the lookup filter. -/
structure XactQuery where
  id : String
  kind : String
  bck : Option Bck
  onlyRunning : Bool

/-- matchEntry (xaction/registry.go lines 726-739): a non-empty query id is
compared against the entry id alone; otherwise the kinds must be equal and
the query bucket must be nil, empty, or equal to the entry's bucket. -/
def matchEntry (entry : Entry) (query : XactQuery) : Bool :=
  if query.id ≠ "" then entry.id == query.id
  else if entry.kind == query.kind then
    match query.bck with
    | none => true
    | some qb => if qb.isEmpty then true else entry.bck.equal qb
  else false

/-- registryEntries (xaction/registry.go): the full ordered entry list, the
active sub-list and the task counter. -/
structure RegistryEntries where
  active : List Entry
  entries : List Entry
  taskCount : Int
deriving DecidableEq

/-- findUnlocked (xaction/registry.go lines 167-194): without onlyRunning,
scan the full list in reverse for the latest match; with onlyRunning, scan
the active list in order skipping finished entries. -/
def findUnlocked (e : RegistryEntries) (query : XactQuery) : Option Entry :=
  if !query.onlyRunning then
    e.entries.reverse.find? (fun entry => matchEntry entry query)
  else
    (e.active.filter (fun entry => !entry.finished)).find?
      (fun entry => matchEntry entry query)

/-- registryEntries.remove, single list (xaction/registry.go lines 224-245):
the first entry with the given id is overwritten by the last element and the
list is truncated by one. -/
def removeOne (l : List Entry) (id : String) : List Entry :=
  match l.getLast? with
  | none => l
  | some last =>
    match l.findIdx? (fun en => en.id == id) with
    | none => l
    | some i => (l.set i last).dropLast

/-- registryEntries.remove (xaction/registry.go lines 224-245): remove the id
from both lists, decrementing the task counter when the removed entry is of
task type. -/
def RegistryEntries.remove (meta : String → XactType) (e : RegistryEntries)
    (id : String) : RegistryEntries :=
  let newTaskCount :=
    match e.entries.find? (fun en => en.id == id) with
    | some en => if meta en.kind = XactType.taskX then e.taskCount - 1 else e.taskCount
    | none => e.taskCount
  { active := removeOne e.active id
    entries := removeOne e.entries id
    taskCount := newTaskCount }

/-- entryOldAge (xaction/registry.go): one hour, in nanoseconds. -/
def entryOldAge : Int := 3600000000000

/-- entriesSizeHW (xaction/registry.go): high watermark on the entry count. -/
def entriesSizeHW : Int := 300

/-- cleanUpFinished (xaction/registry.go lines 503-564): skip the run when
there are no tasks and at most entriesSizeHW entries; otherwise collect every
finished entry that is not protected by the most-recent check (a running
entry of the same kind, and bucket for bucket xactions, carrying the same id)
and whose end time is more than entryOldAge before the start of the run, then
remove the collected ids one by one. -/
def cleanUpFinished (meta : String → XactType) (e : RegistryEntries)
    (startTime : Int) : RegistryEntries :=
  if e.taskCount = 0 ∧ e.entries.length ≤ 300 then e
  else
    let toRemove := e.entries.filter (fun entry =>
      if !entry.finished then false
      else
        let keep :=
          match meta entry.kind with
          | XactType.globalX =>
            match findUnlocked e
                { id := "", kind := entry.kind, bck := none, onlyRunning := true } with
            | some en => en.id == entry.id
            | none => false
          | XactType.bckX =>
            match findUnlocked e
                { id := "", kind := entry.kind, bck := some entry.bck,
                  onlyRunning := true } with
            | some en => en.id == entry.id
            | none => false
          | XactType.taskX => false
        if keep then false
        else decide (entry.eutime + entryOldAge < startTime))
    (toRemove.map Entry.id).foldl (fun acc id => acc.remove meta id) e

/-- GetLatest (xaction/registry.go): lookup of the most recent entry matching
the query, with the onlyRunning filter off. -/
def getLatest (e : RegistryEntries) (query : XactQuery) : Option Entry :=
  findUnlocked e { query with onlyRunning := false }

/-- A single-object download task as the jogger queue sees it: the owning
job id and the request uid. -/
structure DlTask where
  jobID : String
  uid : String
deriving DecidableEq

/-- Lookup of a job's uid set in the queue map (Go map read). -/
def lookupJob : List (String × List String) → String → Option (List String)
  | [], _ => none
  | kv :: rest, j => if kv.fst == j then some kv.snd else lookupJob rest j

/-- queue.putToSet (downloader/jogger.go lines 222-228): create the job's
uid set when missing and insert the uid. -/
def insertUid : List (String × List String) → String → String → List (String × List String)
  | [], j, u => [(j, [u])]
  | kv :: rest, j, u =>
    if kv.fst == j then
      (kv.fst, if kv.snd.contains u then kv.snd else kv.snd ++ [u]) :: rest
    else kv :: insertUid rest j u

/-- queue.removeFromSet (downloader/jogger.go lines 231-244): delete the uid
from the job's set when present, dropping the job key once its set empties. -/
def removeUid : List (String × List String) → String → String → List (String × List String)
  | [], _, _ => []
  | kv :: rest, j, u =>
    if kv.fst == j then
      (if kv.snd.contains u then
        (let l := kv.snd.filter (fun x => !(x == u))
         if l.isEmpty then rest else (kv.fst, l) :: rest)
      else kv :: rest)
    else kv :: removeUid rest j u

/-- The map part of queue.removeJob (downloader/jogger.go lines 246-258):
delete the whole job key, returning how many uids it held. -/
def removeJobM : List (String × List String) → String → Nat × List (String × List String)
  | [], _ => (0, [])
  | kv :: rest, j =>
    if kv.fst == j then (kv.snd.length, rest)
    else
      let r := removeJobM rest j
      (r.fst, kv :: r.snd)

/-- The jogger queue (downloader/jogger.go): the stopped flag stands for
queue.stopped(), true once cleanup has nilled the map and the channel, and m
is the (job id to uid set) map. -/
structure DlQueue where
  stopped : Bool
  m : List (String × List String)
deriving DecidableEq

/-- queue.exists (downloader/jogger.go lines 203-212). -/
def DlQueue.existsTask (q : DlQueue) (j u : String) : Bool :=
  match lookupJob q.m j with
  | none => false
  | some uids => uids.contains u

/-- queue.putCh (downloader/jogger.go lines 143-155): when the queue is
stopped or the (job id, uid) pair is already in the set, hand back a sink
channel (false) leaving the queue as is; otherwise add the pair to the set
and hand back the real channel (true). -/
def DlQueue.putCh (q : DlQueue) (t : DlTask) : Bool × DlQueue :=
  if q.stopped || q.existsTask t.jobID t.uid then (false, q)
  else (true, { q with m := insertUid q.m t.jobID t.uid })

/-- queue.removeFromSet lifted to the queue. -/
def DlQueue.removeFromSet (q : DlQueue) (j u : String) : DlQueue :=
  { q with m := removeUid q.m j u }

/-- queue.removeJob (downloader/jogger.go lines 246-258): no-op on a stopped
queue, otherwise drop the job key and report how many uids were removed. -/
def DlQueue.removeJob (q : DlQueue) (j : String) : Nat × DlQueue :=
  if q.stopped then (0, q)
  else
    let r := removeJobM q.m j
    (r.fst, { q with m := r.snd })

/-- The number of uids the queue set holds for a job. -/
def DlQueue.countJob (q : DlQueue) (j : String) : Nat :=
  match lookupJob q.m j with
  | none => 0
  | some uids => uids.length

/-- The state of one jogger together with the downloader-wide pending
counter: the queue set, the tasks sitting in the bounded channel in FIFO
order, the single current-task slot, and the pending count. -/
structure JoggerSt where
  q : DlQueue
  chan : List DlTask
  current : Option DlTask
  pending : Int
deriving DecidableEq

/-- jogger.putCh (downloader/jogger.go lines 101-107) plus the channel send:
queue admission, and on success the task enters the channel and the
downloader's pending count is incremented. -/
def joggerPut (s : JoggerSt) (t : DlTask) : JoggerSt :=
  let res := s.q.putCh t
  if res.fst then
    { s with q := res.snd, chan := s.chan ++ [t], pending := s.pending + 1 }
  else s

/-- jogger.abortJob (downloader/jogger.go lines 115-127): remove the job's
queued entries from the set, subtract their count from pending, and cancel
the current task exactly when it belongs to the job. Returns the new state
and whether the cancel handle was invoked. -/
def joggerAbortJob (s : JoggerSt) (id : String) : JoggerSt × Bool :=
  let r := s.q.removeJob id
  let cancelled :=
    match s.current with
    | some t => t.jobID == id
    | none => false
  ({ s with q := r.snd, pending := s.pending - Int.ofNat r.fst }, cancelled)

/-- The events of the jogger subsystem. put is a submission through
jogger.putCh; dequeue is one iteration of queue.get inside jogger.jog
(accept the head task when its pair is still in the set, else discard it);
complete is the tail of a jog iteration (persist, clear the current slot,
delete the pair from the set, decrement pending when the pair was still
there); abortJob and stop are jogger.abortJob and jogger.stop plus
queue.cleanup. -/
inductive JEv where
  | put (t : DlTask)
  | dequeue
  | complete
  | abortJob (id : String)
  | stop
deriving DecidableEq

/-- One step of the jogger subsystem (downloader/jogger.go jog/putCh/
abortJob/stop). -/
def jstep (s : JoggerSt) (ev : JEv) : JoggerSt :=
  match ev with
  | JEv.put t => joggerPut s t
  | JEv.dequeue =>
    match s.current, s.chan with
    | none, t :: rest =>
      if s.q.existsTask t.jobID t.uid then { s with chan := rest, current := some t }
      else { s with chan := rest }
    | _, _ => s
  | JEv.complete =>
    match s.current with
    | none => s
    | some t =>
      let ex := s.q.existsTask t.jobID t.uid
      { s with current := none, q := s.q.removeFromSet t.jobID t.uid
               pending := if ex then s.pending - 1 else s.pending }
  | JEv.abortJob id => (joggerAbortJob s id).fst
  | JEv.stop => { s with q := { stopped := true, m := [] } }

/-- Run a trace of jogger events from a state. -/
def jrun (s : JoggerSt) (evs : List JEv) : JoggerSt :=
  evs.foldl jstep s

/-- The empty jogger state: fresh queue, empty channel, no current task. -/
def jinit : JoggerSt :=
  { q := { stopped := false, m := [] }, chan := [], current := none, pending := 0 }

/-- How many tasks with the given (job id, uid) pair are queued or in
flight: occurrences in the channel plus the current-task slot. -/
def pairCount (s : JoggerSt) (p : DlTask) : Nat :=
  (s.chan.filter (fun t => decide (t = p))).length +
    (match s.current with
     | some t => if t = p then 1 else 0
     | none => 0)

/-- Strings are modelled as character lists for the byte-level parsing done
by cluster/fqn.go. -/
abbrev Str := List Char

/-- workfilePrefix (cluster/fqn.go): the marker put in front of a workfile
base name. -/
def wfPre : Str := ['.', '~', '~', '~', '.']

/-- Split a string at the first occurrence of a character (strings.Index):
the part before and the part after, or none when the character is absent. -/
def splitOnFirst (c : Char) : Str → Option (Str × Str)
  | [] => none
  | x :: rest =>
    if x = c then some ([], rest)
    else
      match splitOnFirst c rest with
      | none => none
      | some ab => some (x :: ab.fst, ab.snd)

/-- Split a string at the last occurrence of a character
(strings.LastIndex). -/
def splitOnLast (c : Char) (l : Str) : Option (Str × Str) :=
  match splitOnFirst c l.reverse with
  | none => none
  | some ab => some (ab.snd.reverse, ab.fst.reverse)

/-- filepath.Split: directory part up to and including the last slash, plus
the base name. -/
def splitPath (l : Str) : Str × Str :=
  match splitOnLast '/' l with
  | none => ([], l)
  | some db => (db.fst ++ ['/'], db.snd)

/-- The character for a hex digit value, as strconv.FormatInt(-, 16) emits
it (lowercase). -/
def hexDigitChar (n : Nat) : Char :=
  if n < 10 then Char.ofNat (48 + n) else Char.ofNat (87 + n)

/-- Digits of a natural number in base 16, most significant first; empty for
zero. -/
def formatHexCore (n : Nat) : Str :=
  if n = 0 then []
  else formatHexCore (n / 16) ++ [hexDigitChar (n % 16)]
decreasing_by exact Nat.div_lt_self (Nat.pos_of_ne_zero (by assumption)) (by norm_num)

/-- strconv.FormatInt(n, 16) for a non-negative value. -/
def formatHex (n : Nat) : Str :=
  if n = 0 then ['0'] else formatHexCore n

/-- The value of a hex digit character (either case), or none. -/
def parseHexDigit (c : Char) : Option Nat :=
  if 48 ≤ c.toNat ∧ c.toNat ≤ 57 then some (c.toNat - 48)
  else if 97 ≤ c.toNat ∧ c.toNat ≤ 102 then some (c.toNat - 87)
  else if 65 ≤ c.toNat ∧ c.toNat ≤ 70 then some (c.toNat - 55)
  else none

/-- Accumulating base-16 parse of a digit string. -/
def parseHexCore : Str → Nat → Option Nat
  | [], acc => some acc
  | c :: rest, acc =>
    match parseHexDigit c with
    | none => none
    | some d => parseHexCore rest (acc * 16 + d)

/-- strconv.ParseInt(s, 16, 64) on an unsigned digit string: empty input and
values outside int64 are errors. -/
def parseHexNat (l : Str) : Option Nat :=
  match l with
  | [] => none
  | _ =>
    match parseHexCore l 0 with
    | none => none
    | some v => if v < 2 ^ 63 then some v else none

/-- strconv.ParseInt(s, 16, 64) including the optional sign. -/
def parseHexInt (l : Str) : Option Int :=
  if l.head? = some '-' then (parseHexNat (l.drop 1)).map (fun n => -(n : Int))
  else if l.head? = some '+' then (parseHexNat (l.drop 1)).map (fun n => (n : Int))
  else (parseHexNat l).map (fun n => (n : Int))

/-- DefaultWorkfile.GenUniqueFQN (cluster/fqn.go lines 165-168): the base
name, a tiebreaker and the creator pid in hex, dot-separated. The tiebreaker
(a suffix of the hex timestamp) is an input here. -/
def genUniqueFQN (base tie spid : Str) : Str :=
  base ++ '.' :: (tie ++ '.' :: spid)

/-- DefaultWorkfile.ParseUniqueFQN (cluster/fqn.go lines 170-185): split off
the pid at the last dot, then the tiebreaker at the last dot of the rest; the
original base is what remains, and the workfile is old exactly when the
parsed pid differs from the current process's pid. -/
def ParseUniqueFQN (pid : Int) (base : Str) : Option (Str × Bool) :=
  match splitOnLast '.' base with
  | none => none
  | some ps =>
    match splitOnLast '.' ps.fst with
    | none => none
    | some ot =>
      match parseHexInt ps.snd with
      | none => none
      | some filePID => some (ot.fst, decide (filePID ≠ pid))

/-- RegisterFileType (cluster/fqn.go lines 93-103): reject a type containing
a dot or one already registered, leaving the registry untouched; otherwise
register it. The registry is the list of registered type names, every one
resolved by DefaultWorkfile, the only resolver under src/. -/
def RegisterFileType (reg : List Str) (fileType : Str) : Option String × List Str :=
  if '.' ∈ fileType then (some "file type should not contain dot", reg)
  else if fileType ∈ reg then (some "file type is already registered", reg)
  else (none, reg ++ [fileType])

/-- GenContentFQN (cluster/fqn.go lines 109-120): split the fqn, assert a
non-empty directory and base and a registered type, and produce
dir + workfilePrefix + fileType + "." + GenUniqueFQN(base). Assertion
failures yield none. -/
def GenContentFQN (reg : List Str) (spid tie : Str) (fqn : Str) (fileType : Str) :
    Option Str :=
  let db := splitPath fqn
  if db.fst.getLast? = some '/' then
    if db.snd = [] then none
    else if fileType ∈ reg then
      some (db.fst ++ wfPre ++ fileType ++ '.' :: genUniqueFQN db.snd tie spid)
    else none
  else none

/-- The information FileSpec extracts from a workfile fqn. -/
structure ContentInfo where
  dir : Str
  base : Str
  old : Bool
  ty : Str
deriving DecidableEq

/-- FileSpec (cluster/fqn.go lines 124-159): split the fqn; require the
directory to end in a slash and the base to start with the workfile marker;
take the file type up to the first dot after the marker, require it
registered, and parse the remainder with the resolver's ParseUniqueFQN. -/
def FileSpec (reg : List Str) (pid : Int) (fqn : Str) : Option ContentInfo :=
  let db := splitPath fqn
  if db.fst.getLast? = some '/' then
    if wfPre.isPrefixOf db.snd then
      match splitOnFirst '.' (db.snd.drop 5) with
      | none => none
      | some tr =>
        if tr.fst ∈ reg then
          match ParseUniqueFQN pid tr.snd with
          | none => none
          | some ob => some { dir := db.fst, base := ob.fst, old := ob.snd, ty := tr.fst }
        else none
    else none
  else none

/-! Helper lemmas about the bucket-table map operations. -/

theorem getB_append_self (l : List (Bck × BucketProps)) (b : Bck) (p : BucketProps)
    (h : getB l b = none) : getB (l ++ [(b, p)]) b = some p := by
  induction l with
  | nil => simp [getB]
  | cons kv rest ih =>
    by_cases hk : kv.fst = b
    · simp [getB, hk] at h
    · simp only [List.cons_append, getB, if_neg hk] at h ⊢
      exact ih h

theorem getB_append_ne (l : List (Bck × BucketProps)) (b b' : Bck) (p : BucketProps)
    (h : b' ≠ b) : getB (l ++ [(b, p)]) b' = getB l b' := by
  induction l with
  | nil =>
    simp only [List.nil_append, getB]
    exact if_neg (fun hh => h hh.symm)
  | cons kv rest ih =>
    by_cases hk : kv.fst = b'
    · simp [getB, hk]
    · simp only [List.cons_append, getB, if_neg hk]
      exact ih

theorem getB_setB_self (l : List (Bck × BucketProps)) (b : Bck) (p : BucketProps) :
    getB (setB l b p) b = some p := by
  induction l with
  | nil => simp [getB, setB]
  | cons kv rest ih =>
    by_cases hk : kv.fst = b
    · simp [getB, setB, hk]
    · simp only [setB, if_neg hk, getB, if_neg hk]
      exact ih

theorem getB_setB_ne (l : List (Bck × BucketProps)) (b b' : Bck) (p : BucketProps)
    (h : b' ≠ b) : getB (setB l b p) b' = getB l b' := by
  induction l with
  | nil =>
    simp only [setB, getB]
    exact if_neg (fun hh => h hh.symm)
  | cons kv rest ih =>
    by_cases hk : kv.fst = b
    · subst hk
      simp only [setB, if_pos rfl, getB]
      rw [if_neg (fun hh => h hh.symm), if_neg (fun hh => h hh.symm)]
    · simp only [setB, if_neg hk, getB, ih]

/-- C1: for createBucket, makeNCopies, setBucketProps, renameBucket and
copyBucket, a target error during the begin phase makes the proxy broadcast
an abort on the same transaction path, return that error, and leave the BMD
untouched (same version and bucket map). Preconditions put each operation on
the path that reaches the begin broadcast. -/
theorem txn_begin_error_aborts
    (bmd : BMD) (bck bckM bckS bckFrom bckTo : Bck) (props ps ps' psS np : BucketProps)
    (value copies : Int) (act : SetPropsAct) (patch : BucketProps → BucketProps)
    (cfg rmdV : Int) (beginRes commitRes : List (Option String)) (e : String)
    (hbegin : firstErr beginRes = some e) :
    (bmd.Get bck = none →
      createBucket bmd bck props beginRes commitRes =
        (Except.error (AisErr.tgt e), bmd,
          [Bcast.mk (txnPath bck) TxnAct.beginAct,
           Bcast.mk (txnPath bck) TxnAct.abortAct])) ∧
    (parseNCopies value = Except.ok copies → bmd.Get bckM = some ps →
      makeNCopies bmd bckM value beginRes commitRes =
        (Except.error (AisErr.tgt e), bmd,
          [Bcast.mk (txnPath bckM) TxnAct.beginAct,
           Bcast.mk (txnPath bckM) TxnAct.abortAct])) ∧
    (bmd.Get bckS = some psS →
      (match act with
       | SetPropsAct.setBprops => makeNprops psS patch cfg
       | SetPropsAct.resetBprops => Except.ok defaultBucketProps) = Except.ok np →
      setBucketProps bmd bckS act patch cfg beginRes =
        (Except.error (AisErr.tgt e), bmd,
          [Bcast.mk (txnPath bckS) TxnAct.beginAct,
           Bcast.mk (txnPath bckS) TxnAct.abortAct])) ∧
    (bmd.Get bckFrom = some ps → bmd.Get bckTo = none →
      renameBucket bmd rmdV bckFrom bckTo none true true beginRes =
        (Except.error (AisErr.tgt e), bmd,
          [Bcast.mk (txnPath bckFrom) TxnAct.beginAct,
           Bcast.mk (txnPath bckFrom) TxnAct.abortAct], rmdV)) ∧
    (bmd.Get bckFrom = some ps' →
      copyBucket bmd bckFrom bckTo true true beginRes =
        (Except.error (AisErr.tgt e), bmd,
          [Bcast.mk (txnPath bckFrom) TxnAct.beginAct,
           Bcast.mk (txnPath bckFrom) TxnAct.abortAct])) := by
  refine ⟨?_, ?_, ?_, ?_, ?_⟩
  · intro h
    simp [createBucket, h, hbegin]
  · intro hv h
    simp [makeNCopies, hv, h, hbegin]
  · intro h hnp
    simp only [setBucketProps, BMD.clone, h, hnp, hbegin]
    rfl
  · intro hf ht
    simp [renameBucket, hf, ht, hbegin]
  · intro hf
    simp [copyBucket, hf, hbegin]

/-- Witness for txn_begin_error_aborts at concrete inputs: one existing
bucket, a missing destination, and a begin broadcast whose single target
reports an error. -/
theorem txn_begin_error_aborts_witness :
    (let bA : Bck := { name := "a", provider := "ais", ns := "" }
     let bB : Bck := { name := "b", provider := "ais", ns := "" }
     let bmd : BMD := { version := 7, buckets := [(bA, defaultBucketProps)] }
     createBucket bmd bB defaultBucketProps [some "boom"] [] =
        (Except.error (AisErr.tgt "boom"), bmd,
          [Bcast.mk (txnPath bB) TxnAct.beginAct,
           Bcast.mk (txnPath bB) TxnAct.abortAct]) ∧
     makeNCopies bmd bA 2 [some "boom"] [] =
        (Except.error (AisErr.tgt "boom"), bmd,
          [Bcast.mk (txnPath bA) TxnAct.beginAct,
           Bcast.mk (txnPath bA) TxnAct.abortAct]) ∧
     setBucketProps bmd bA SetPropsAct.resetBprops id 2 [some "boom"] =
        (Except.error (AisErr.tgt "boom"), bmd,
          [Bcast.mk (txnPath bA) TxnAct.beginAct,
           Bcast.mk (txnPath bA) TxnAct.abortAct]) ∧
     renameBucket bmd 3 bA bB none true true [some "boom"] =
        (Except.error (AisErr.tgt "boom"), bmd,
          [Bcast.mk (txnPath bA) TxnAct.beginAct,
           Bcast.mk (txnPath bA) TxnAct.abortAct], 3) ∧
     copyBucket bmd bA bB true true [some "boom"] =
        (Except.error (AisErr.tgt "boom"), bmd,
          [Bcast.mk (txnPath bA) TxnAct.beginAct,
           Bcast.mk (txnPath bA) TxnAct.abortAct])) := by
  have h := txn_begin_error_aborts
    { version := 7, buckets := [({ name := "a", provider := "ais", ns := "" },
                                 defaultBucketProps)] }
    { name := "b", provider := "ais", ns := "" }
    { name := "a", provider := "ais", ns := "" }
    { name := "a", provider := "ais", ns := "" }
    { name := "a", provider := "ais", ns := "" }
    { name := "b", provider := "ais", ns := "" }
    defaultBucketProps defaultBucketProps defaultBucketProps defaultBucketProps
    defaultBucketProps 2 2 SetPropsAct.resetBprops id 2 3 [some "boom"] []
    "boom" (by rfl)
  exact ⟨h.1 (by rfl), h.2.1 (by rfl) (by rfl), h.2.2.1 (by rfl) (by rfl),
         h.2.2.2.1 (by rfl) (by rfl), h.2.2.2.2 (by rfl)⟩

/-- C2: renameBucket returns BucketIsBusy when either try-lock fails,
BucketDoesNotExist when the source is absent, BucketAlreadyExists when the
destination is present, and on success keeps the source bucket present with
its Renamed property set while adding the destination with a clone of the
source's properties. The rebalance pre-check is assumed to pass. -/
theorem renameBucket_locks_preconds_update
    (bmd : BMD) (rmdV : Int) (bckFrom bckTo : Bck) (tryT : Bool)
    (beginRes : List (Option String)) (ps ps' : BucketProps) :
    (renameBucket bmd rmdV bckFrom bckTo none false tryT beginRes =
      (Except.error (AisErr.bucketIsBusy bckFrom), bmd, [], rmdV)) ∧
    (renameBucket bmd rmdV bckFrom bckTo none true false beginRes =
      (Except.error (AisErr.bucketIsBusy bckTo), bmd, [], rmdV)) ∧
    (bmd.Get bckFrom = none →
      renameBucket bmd rmdV bckFrom bckTo none true true beginRes =
        (Except.error (AisErr.bucketDoesNotExist bckFrom), bmd, [], rmdV)) ∧
    (bmd.Get bckFrom = some ps → bmd.Get bckTo = some ps' →
      renameBucket bmd rmdV bckFrom bckTo none true true beginRes =
        (Except.error (AisErr.bucketAlreadyExists bckTo), bmd, [], rmdV)) ∧
    (bmd.Get bckFrom = some ps → bmd.Get bckTo = none → firstErr beginRes = none →
      (renameBucket bmd rmdV bckFrom bckTo none true true beginRes).fst =
        Except.ok () ∧
      (renameBucket bmd rmdV bckFrom bckTo none true true beginRes).snd.fst.Get
        bckFrom = some { ps with renamed := actRenameLB } ∧
      (renameBucket bmd rmdV bckFrom bckTo none true true beginRes).snd.fst.Get
        bckTo = some ps.clone) := by
  refine ⟨?_, ?_, ?_, ?_, ?_⟩
  · simp [renameBucket]
  · simp [renameBucket]
  · intro hf
    simp [renameBucket, hf]
  · intro hf ht
    simp [renameBucket, hf, ht]
  · intro hf ht hb
    have hne : bckTo ≠ bckFrom := by
      intro hh
      rw [hh, hf] at ht
      exact Option.noConfusion ht
    simp only [renameBucket, BMD.clone, hf, ht, hb, Bool.not_true, Bool.false_eq_true,
      if_false]
    refine ⟨by trivial, ?_, ?_⟩
    · show (((bmd.add bckTo ps.clone).fst.set bckFrom
          { ps.clone with renamed := actRenameLB }).Get bckFrom) = _
      simp only [BMD.Get, BMD.set, BMD.add, BMD.Get, BucketProps.clone]
      rw [show getB bmd.buckets bckTo = none from ht]
      exact getB_setB_self _ _ _
    · show (((bmd.add bckTo ps.clone).fst.set bckFrom
          { ps.clone with renamed := actRenameLB }).Get bckTo) = _
      simp only [BMD.Get, BMD.set, BMD.add, BucketProps.clone]
      rw [show getB bmd.buckets bckTo = none from ht]
      rw [getB_setB_ne _ _ _ _ hne]
      exact getB_append_self _ _ _ ht

/-- Witness for renameBucket_locks_preconds_update: a two-bucket BMD with a
present source and absent destination; each clause is exercised. -/
theorem renameBucket_locks_preconds_update_witness :
    (let bA : Bck := { name := "a", provider := "ais", ns := "" }
     let bB : Bck := { name := "b", provider := "ais", ns := "" }
     let bmd : BMD := { version := 7, buckets := [(bA, defaultBucketProps)] }
     renameBucket bmd 3 bA bB none false true [] =
        (Except.error (AisErr.bucketIsBusy bA), bmd, [], 3) ∧
     renameBucket bmd 3 bA bB none true false [] =
        (Except.error (AisErr.bucketIsBusy bB), bmd, [], 3) ∧
     renameBucket bmd 3 bB bA none true true [] =
        (Except.error (AisErr.bucketDoesNotExist bB), bmd, [], 3) ∧
     (renameBucket bmd 3 bA bB none true true []).fst = Except.ok () ∧
     (renameBucket bmd 3 bA bB none true true []).snd.fst.Get bA =
        some { defaultBucketProps with renamed := actRenameLB } ∧
     (renameBucket bmd 3 bA bB none true true []).snd.fst.Get bB =
        some defaultBucketProps.clone) := by
  have h1 := renameBucket_locks_preconds_update
    { version := 7, buckets := [({ name := "a", provider := "ais", ns := "" },
                                 defaultBucketProps)] }
    3
    { name := "a", provider := "ais", ns := "" }
    { name := "b", provider := "ais", ns := "" }
    true [] defaultBucketProps defaultBucketProps
  have h2 := renameBucket_locks_preconds_update
    { version := 7, buckets := [({ name := "a", provider := "ais", ns := "" },
                                 defaultBucketProps)] }
    3
    { name := "b", provider := "ais", ns := "" }
    { name := "a", provider := "ais", ns := "" }
    true [] defaultBucketProps defaultBucketProps
  have h5 := h1.2.2.2.2 (by rfl) (by rfl) (by rfl)
  exact ⟨h1.1, h1.2.1, h2.2.2.1 (by rfl), h5.1, h5.2.1, h5.2.2⟩

/-- C9: on the successful path, makeNCopies stores Mirror.Copies = copies and
Mirror.Enabled = (copies > 1); and a request for a single copy parses
without error, so makencopies(b, 1) succeeds and disables mirroring. -/
theorem makeNCopies_mirror_update
    (bmd : BMD) (bck : Bck) (value copies : Int) (ps : BucketProps)
    (beginRes commitRes : List (Option String))
    (hv : parseNCopies value = Except.ok copies)
    (hg : bmd.Get bck = some ps)
    (hb : firstErr beginRes = none) (hc : firstErr commitRes = none) :
    (makeNCopies bmd bck value beginRes commitRes).fst = Except.ok () ∧
    (makeNCopies bmd bck value beginRes commitRes).snd.fst.Get bck =
      some { ps with mirror := { enabled := decide (copies > 1), copies := copies } } ∧
    parseNCopies 1 = Except.ok 1 := by
  refine ⟨?_, ?_, by rfl⟩
  · simp [makeNCopies, hv, hg, hb, hc, BMD.clone]
  · simp only [makeNCopies, hv, hg, hb, hc, BMD.clone, BucketProps.clone]
    show (bmd.set bck _).Get bck = _
    simp only [BMD.Get, BMD.set]
    exact getB_setB_self _ _ _

/-- Witness for makeNCopies_mirror_update at copies = 1: the request is
accepted and the stored properties have mirroring disabled with one copy. -/
theorem makeNCopies_mirror_update_witness :
    (let bA : Bck := { name := "a", provider := "ais", ns := "" }
     let bmd : BMD := { version := 7, buckets := [(bA, defaultBucketProps)] }
     (makeNCopies bmd bA 1 [] []).fst = Except.ok () ∧
     (makeNCopies bmd bA 1 [] []).snd.fst.Get bA =
        some { defaultBucketProps with mirror := { enabled := false, copies := 1 } }) := by
  have h := makeNCopies_mirror_update
    { version := 7, buckets := [({ name := "a", provider := "ais", ns := "" },
                                 defaultBucketProps)] }
    { name := "a", provider := "ais", ns := "" }
    1 1 defaultBucketProps [] []
    (by rfl) (by rfl) (by rfl) (by rfl)
  exact ⟨h.1, h.2.1⟩

/-- The query-match predicate exactly as the spec words it (for comparison
with matchEntry): id matches or id empty, and kind matches or kind empty,
and bucket matches or bucket empty. -/
def specQueryMatch (entry : Entry) (query : XactQuery) : Bool :=
  (query.id == "" || entry.id == query.id) &&
  (query.kind == "" || entry.kind == query.kind) &&
  (match query.bck with
   | none => true
   | some qb => qb.isEmpty || entry.bck.equal qb)

/-- C4 counterexample: an entry of kind lru and a query with empty id and
empty kind. The spec-worded predicate matches it, but matchEntry compares
the kinds for equality, so the lookup finds nothing. -/
theorem matchEntry_empty_kind_counterexample :
    specQueryMatch
      { id := "x1", kind := "lru", bck := { name := "", provider := "", ns := "" },
        eutime := 0 }
      { id := "", kind := "", bck := none, onlyRunning := false } = true ∧
    matchEntry
      { id := "x1", kind := "lru", bck := { name := "", provider := "", ns := "" },
        eutime := 0 }
      { id := "", kind := "", bck := none, onlyRunning := false } = false ∧
    findUnlocked
      { active := [{ id := "x1", kind := "lru",
                     bck := { name := "", provider := "", ns := "" }, eutime := 0 }],
        entries := [{ id := "x1", kind := "lru",
                      bck := { name := "", provider := "", ns := "" }, eutime := 0 }],
        taskCount := 0 }
      { id := "", kind := "", bck := none, onlyRunning := false } = none := by
  decide

/-- C4 amended: a non-empty query id is compared against the entry id alone
(kind and bucket are ignored); otherwise the kinds must be equal, so an empty
query kind matches only entries of empty kind, and the query bucket must be
nil, empty, or equal to the entry's bucket. The running filter is applied by
the lookup itself: under onlyRunning only non-finished entries of the active
list are returned, otherwise the latest match of the full list. -/
theorem matchEntry_characterization (en en' : Entry) (q : XactQuery)
    (st : RegistryEntries) :
    (matchEntry en q = true ↔
      (if q.id ≠ "" then en.id = q.id
       else en.kind = q.kind ∧
         ∀ qb, q.bck = some qb → qb.isEmpty = true ∨ en.bck = qb)) ∧
    (q.onlyRunning = true → findUnlocked st q = some en' →
      en'.finished = false ∧ matchEntry en' q = true ∧ en' ∈ st.active) ∧
    (q.onlyRunning = false → findUnlocked st q = some en' →
      matchEntry en' q = true ∧ en' ∈ st.entries) := by
  refine ⟨?_, ?_, ?_⟩
  · unfold matchEntry
    by_cases hid : q.id ≠ ""
    · simp [hid, beq_iff_eq]
    · cases hqb : q.bck with
      | none => simp [hid, hqb, beq_iff_eq]
      | some qb =>
        by_cases he : qb.isEmpty
        · simp [hid, hqb, he, beq_iff_eq]
        · simp [hid, hqb, he, beq_iff_eq, Bck.equal]
  · intro hr hf
    unfold findUnlocked at hf
    rw [hr] at hf
    simp only [Bool.not_true, Bool.false_eq_true, if_false] at hf
    have hmem := List.mem_of_find?_eq_some hf
    have hp := List.find?_some hf
    rw [List.mem_filter] at hmem
    refine ⟨?_, hp, hmem.1⟩
    cases hfin : en'.finished with
    | true => rw [hfin] at hmem; simp at hmem
    | false => rfl
  · intro hr hf
    unfold findUnlocked at hf
    rw [hr] at hf
    simp only [Bool.not_false, if_true] at hf
    have hmem := List.mem_of_find?_eq_some hf
    have hp := List.find?_some hf
    rw [List.mem_reverse] at hmem
    exact ⟨hp, hmem⟩

/-- Witness for matchEntry_characterization: a concrete running lru entry is
returned by an onlyRunning lookup and satisfies the characterization. -/
theorem matchEntry_characterization_witness :
    ({ id := "x1", kind := "lru", bck := { name := "", provider := "", ns := "" },
       eutime := 0 } : Entry).finished = false ∧
    matchEntry
      { id := "x1", kind := "lru", bck := { name := "", provider := "", ns := "" },
        eutime := 0 }
      { id := "", kind := "lru", bck := none, onlyRunning := true } = true ∧
    ({ id := "x1", kind := "lru", bck := { name := "", provider := "", ns := "" },
       eutime := 0 } : Entry) ∈
      ({ active := [{ id := "x1", kind := "lru",
                      bck := { name := "", provider := "", ns := "" }, eutime := 0 }],
         entries := [{ id := "x1", kind := "lru",
                       bck := { name := "", provider := "", ns := "" }, eutime := 0 }],
         taskCount := 0 } : RegistryEntries).active := by
  have h := matchEntry_characterization
    { id := "x1", kind := "lru", bck := { name := "", provider := "", ns := "" },
      eutime := 0 }
    { id := "x1", kind := "lru", bck := { name := "", provider := "", ns := "" },
      eutime := 0 }
    { id := "", kind := "lru", bck := none, onlyRunning := true }
    { active := [{ id := "x1", kind := "lru",
                   bck := { name := "", provider := "", ns := "" }, eutime := 0 }],
      entries := [{ id := "x1", kind := "lru",
                    bck := { name := "", provider := "", ns := "" }, eutime := 0 }],
      taskCount := 0 }
  exact h.2.1 rfl (by decide)

/-- C3: one housekeeper run on a registry holding a finished task entry
(taskCount = 1, so the size gate is passed) and one finished bucket-xaction
entry that ended more than one hour before the run. The bucket entry is the
most recent (indeed the only) entry for its (kind, bucket) pair, yet the run
removes it: the protective check looks for a running entry with the same id,
which a finished entry can never satisfy. A latest-history lookup for that
kind and bucket afterwards returns nothing, contradicting the claimed
retention rule (and the code's own comment). -/
theorem cleanUpFinished_drops_most_recent :
    (({ id := "x1", kind := "ec", bck := { name := "b1", provider := "ais", ns := "" },
        eutime := 2 } : Entry).finished = true ∧
     decide ((2 : Int) + entryOldAge < 4000000000000) = true) ∧
    cleanUpFinished
      (fun k => if k = "list" then XactType.taskX else XactType.bckX)
      { active := []
        entries := [{ id := "t1", kind := "list",
                      bck := { name := "", provider := "", ns := "" }, eutime := 1 },
                    { id := "x1", kind := "ec",
                      bck := { name := "b1", provider := "ais", ns := "" }, eutime := 2 }]
        taskCount := 1 }
      4000000000000 =
      { active := [], entries := [], taskCount := 0 } ∧
    getLatest
      (cleanUpFinished
        (fun k => if k = "list" then XactType.taskX else XactType.bckX)
        { active := []
          entries := [{ id := "t1", kind := "list",
                        bck := { name := "", provider := "", ns := "" }, eutime := 1 },
                      { id := "x1", kind := "ec",
                        bck := { name := "b1", provider := "ais", ns := "" }, eutime := 2 }]
          taskCount := 1 }
        4000000000000)
      { id := "", kind := "ec", bck := some { name := "b1", provider := "ais", ns := "" },
        onlyRunning := false } = none := by
  decide

/-! Helper lemmas about the jogger queue map. -/

theorem lookupJob_insertUid_self (m : List (String × List String)) (j u : String) :
    lookupJob (insertUid m j u) j =
      some (match lookupJob m j with
            | none => [u]
            | some l => if l.contains u then l else l ++ [u]) := by
  induction m with
  | nil => simp [insertUid, lookupJob]
  | cons kv rest ih =>
    by_cases hk : kv.fst == j
    · simp [insertUid, lookupJob, hk]
    · simp [insertUid, lookupJob, hk, ih]

theorem lookupJob_insertUid_ne (m : List (String × List String)) (j u x : String)
    (h : x ≠ j) : lookupJob (insertUid m j u) x = lookupJob m x := by
  have hb : (j == x) = false := by
    apply Bool.eq_false_iff.mpr
    intro hjx
    exact h (beq_iff_eq.mp hjx).symm
  induction m with
  | nil => simp [insertUid, lookupJob, hb]
  | cons kv rest ih =>
    by_cases hk : kv.fst == j
    · have hkx : (kv.fst == x) = false := by
        have hkj : kv.fst = j := beq_iff_eq.mp hk
        apply Bool.eq_false_iff.mpr
        intro hkx
        exact h ((beq_iff_eq.mp hkx).symm.trans hkj)
      simp [insertUid, lookupJob, hk, hkx]
    · by_cases hx : kv.fst == x
      · simp [insertUid, lookupJob, hk, hx]
      · simp [insertUid, lookupJob, hk, hx, ih]

/-- The pair (job, uid) is in the queue set after putToSet. -/
theorem existsTask_insertUid_self (q : DlQueue) (j u : String) :
    ({ q with m := insertUid q.m j u } : DlQueue).existsTask j u = true := by
  simp only [DlQueue.existsTask, lookupJob_insertUid_self]
  cases hl : lookupJob q.m j with
  | none => simp
  | some l =>
    by_cases hc : u ∈ l
    · simp [hc]
    · simp [hc]

/-- putToSet never removes a pair from the queue set. -/
theorem existsTask_insertUid_mono (q : DlQueue) (j u x y : String)
    (h : q.existsTask x y = true) :
    ({ q with m := insertUid q.m j u } : DlQueue).existsTask x y = true := by
  by_cases hx : x = j
  · subst hx
    simp only [DlQueue.existsTask, lookupJob_insertUid_self]
    simp only [DlQueue.existsTask] at h
    cases hl : lookupJob q.m x with
    | none => rw [hl] at h; exact absurd h (by simp)
    | some l =>
      rw [hl] at h
      by_cases hc : u ∈ l
      · simpa [hc] using h
      · simp only [List.contains_eq_any_beq] at h ⊢
        simp [hc]
        simp at h
        exact Or.inl h
  · simp only [DlQueue.existsTask, lookupJob_insertUid_ne q.m j u x hx]
    exact h

/-- C5: queue admission. When the queue is stopped or the (job id, uid) pair
is already in the set, putCh hands back the sink channel, the queue set is
unchanged and the jogger state (in particular the downloader pending count)
is unchanged; otherwise the pair is added to the set, the real channel is
returned, the task enters the channel and pending grows by one. -/
theorem queue_admission (s : JoggerSt) (t : DlTask) :
    ((s.q.stopped = true ∨ s.q.existsTask t.jobID t.uid = true) →
      (s.q.putCh t).fst = false ∧ (s.q.putCh t).snd = s.q ∧ joggerPut s t = s) ∧
    (s.q.stopped = false → s.q.existsTask t.jobID t.uid = false →
      (s.q.putCh t).fst = true ∧
      (s.q.putCh t).snd.existsTask t.jobID t.uid = true ∧
      joggerPut s t =
        { s with q := (s.q.putCh t).snd, chan := s.chan ++ [t],
                 pending := s.pending + 1 }) := by
  constructor
  · intro h
    have hcond : (s.q.stopped || s.q.existsTask t.jobID t.uid) = true := by
      rcases h with h | h <;> simp [h]
    simp [DlQueue.putCh, hcond, joggerPut]
  · intro hs he
    have hcond : (s.q.stopped || s.q.existsTask t.jobID t.uid) = false := by
      simp [hs, he]
    refine ⟨by simp [DlQueue.putCh, hcond], ?_, ?_⟩
    · simp only [DlQueue.putCh, hcond, Bool.false_eq_true, if_false]
      exact existsTask_insertUid_self s.q t.jobID t.uid
    · simp [joggerPut, DlQueue.putCh, hcond]

/-- Witness for queue_admission: a queue already holding ("j","u") rejects a
duplicate submission without touching pending, and admits a new uid,
incrementing pending. -/
theorem queue_admission_witness :
    ((({ q := { stopped := false, m := [("j", ["u"])] }, chan := [{ jobID := "j", uid := "u" }],
         current := none, pending := 1 } : JoggerSt).q.putCh
        { jobID := "j", uid := "u" }).fst = false ∧
     joggerPut
       { q := { stopped := false, m := [("j", ["u"])] }, chan := [{ jobID := "j", uid := "u" }],
         current := none, pending := 1 } { jobID := "j", uid := "u" } =
       { q := { stopped := false, m := [("j", ["u"])] }, chan := [{ jobID := "j", uid := "u" }],
         current := none, pending := 1 } ∧
     ((({ q := { stopped := false, m := [("j", ["u"])] }, chan := [{ jobID := "j", uid := "u" }],
          current := none, pending := 1 } : JoggerSt).q.putCh
        { jobID := "j", uid := "v" }).fst = true ∧
      (joggerPut
        { q := { stopped := false, m := [("j", ["u"])] }, chan := [{ jobID := "j", uid := "u" }],
          current := none, pending := 1 } { jobID := "j", uid := "v" }).pending = 2)) := by
  have h1 := queue_admission
    { q := { stopped := false, m := [("j", ["u"])] },
      chan := [{ jobID := "j", uid := "u" }], current := none, pending := 1 }
    { jobID := "j", uid := "u" }
  have h2 := queue_admission
    { q := { stopped := false, m := [("j", ["u"])] },
      chan := [{ jobID := "j", uid := "u" }], current := none, pending := 1 }
    { jobID := "j", uid := "v" }
  have hr := h1.1 (Or.inr (by decide))
  have ha := h2.2 (by decide) (by decide)
  refine ⟨hr.1, hr.2.2, ha.1, ?_⟩
  rw [ha.2.2]
  decide

/-! Lemmas about removal from the queue map, under the key-uniqueness
invariant that Go maps provide by construction. -/

/-- The keys of the queue map are pairwise distinct (true of a Go map by
construction; preserved by all queue operations). -/
def keysNodup (m : List (String × List String)) : Prop :=
  (m.map Prod.fst).Nodup

theorem lookupJob_none_of_not_mem_keys (m : List (String × List String)) (j : String)
    (h : j ∉ m.map Prod.fst) : lookupJob m j = none := by
  induction m with
  | nil => rfl
  | cons kv rest ih =>
    simp only [List.map_cons, List.mem_cons] at h
    push_neg at h
    have hk : (kv.fst == j) = false := by
      apply Bool.eq_false_iff.mpr
      intro hkx
      exact h.1 (beq_iff_eq.mp hkx).symm
    simp only [lookupJob, hk, Bool.false_eq_true, if_false]
    exact ih h.2

theorem lookupJob_removeUid_ne (m : List (String × List String)) (j u x : String)
    (h : x ≠ j) : lookupJob (removeUid m j u) x = lookupJob m x := by
  induction m with
  | nil => rfl
  | cons kv rest ih =>
    by_cases hk : kv.fst == j
    · have hkx : (kv.fst == x) = false := by
        have hkj : kv.fst = j := beq_iff_eq.mp hk
        apply Bool.eq_false_iff.mpr
        intro hkx
        exact h ((beq_iff_eq.mp hkx).symm.trans hkj)
      by_cases hc : u ∈ kv.snd
      · by_cases hempty : (kv.snd.filter (fun v => !(v == u))).isEmpty
        · simp [removeUid, hk, hc, hempty, lookupJob, hkx]
        · simp [removeUid, hk, hc, hempty, lookupJob, hkx]
      · simp [removeUid, hk, hc, lookupJob, hkx]
    · by_cases hx : kv.fst == x
      · simp [removeUid, hk, hx, lookupJob]
      · simp [removeUid, hk, hx, lookupJob, ih]

theorem lookupJob_removeUid_self (m : List (String × List String)) (j u : String)
    (hnd : keysNodup m) :
    lookupJob (removeUid m j u) j =
      match lookupJob m j with
      | none => none
      | some l =>
        if l.contains u then
          (if (l.filter (fun v => !(v == u))).isEmpty then none
           else some (l.filter (fun v => !(v == u))))
        else some l := by
  induction m with
  | nil => rfl
  | cons kv rest ih =>
    have hnd' : keysNodup rest := by
      simp only [keysNodup, List.map_cons, List.nodup_cons] at hnd
      exact hnd.2
    by_cases hk : kv.fst == j
    · have hkj : kv.fst = j := beq_iff_eq.mp hk
      have hrest : lookupJob rest j = none := by
        apply lookupJob_none_of_not_mem_keys
        simp only [keysNodup, List.map_cons, List.nodup_cons] at hnd
        rw [hkj] at hnd
        exact hnd.1
      by_cases hc : u ∈ kv.snd
      · by_cases hempty : (kv.snd.filter (fun v => !(v == u))).isEmpty
        · simp [removeUid, hk, hc, hempty, lookupJob, hrest]
        · simp [removeUid, hk, hc, hempty, lookupJob]
      · simp [removeUid, hk, hc, lookupJob]
    · by_cases hx : kv.fst == j
      · exact absurd hx hk
      · simp [removeUid, hk, lookupJob, ih hnd']

theorem contains_filter_ne (l : List String) (u y : String) (h : y ≠ u) :
    (l.filter (fun v => !(v == u))).contains y = l.contains y := by
  by_cases hy : y ∈ l
  · have : y ∈ l.filter (fun v => !(v == u)) := by
      rw [List.mem_filter]
      refine ⟨hy, ?_⟩
      simp only [Bool.not_eq_eq_eq_not, Bool.not_true]
      apply Bool.eq_false_iff.mpr
      intro hyx
      exact h (beq_iff_eq.mp hyx)
    simp [hy, this]
  · have : y ∉ l.filter (fun v => !(v == u)) := by
      intro hmem
      exact hy (List.mem_filter.mp hmem).1
    simp [hy, this]

/-- Removing one (job, uid) pair from the set leaves every other pair's
membership unchanged. -/
theorem existsTask_removeUid_other (q : DlQueue) (j u x y : String)
    (hnd : keysNodup q.m) (h : x ≠ j ∨ y ≠ u) :
    ({ q with m := removeUid q.m j u } : DlQueue).existsTask x y =
      q.existsTask x y := by
  by_cases hx : x = j
  · subst hx
    have hy : y ≠ u := by
      rcases h with h | h
      · exact absurd rfl h
      · exact h
    simp only [DlQueue.existsTask, lookupJob_removeUid_self q.m x u hnd]
    cases hl : lookupJob q.m x with
    | none => rfl
    | some l =>
      by_cases hc : l.contains u
      · by_cases hempty : (l.filter (fun v => !(v == u))).isEmpty
        · simp only [hc, hempty, if_true, if_pos]
          have hcy : l.contains y = false := by
            rw [← contains_filter_ne l u y hy]
            rw [List.isEmpty_iff] at hempty
            rw [hempty]
            rfl
          have hyl : y ∉ l := by simpa using hcy
          simp [hcy, hyl]
        · simp only [hc, hempty, if_true, if_neg, Bool.false_eq_true]
          exact contains_filter_ne l u y hy
      · have hcm : u ∉ l := by simpa using hc
        simp [hcm]
  · simp only [DlQueue.existsTask, lookupJob_removeUid_ne q.m j u x hx]

theorem keys_insertUid (m : List (String × List String)) (j u : String) :
    (insertUid m j u).map Prod.fst =
      if j ∈ m.map Prod.fst then m.map Prod.fst else m.map Prod.fst ++ [j] := by
  induction m with
  | nil => simp [insertUid]
  | cons kv rest ih =>
    by_cases hk : kv.fst == j
    · have hkj : kv.fst = j := beq_iff_eq.mp hk
      simp [insertUid, hk, hkj]
    · have hjk : ¬ j = kv.fst := fun hh => hk (beq_iff_eq.mpr hh.symm)
      by_cases hj : j ∈ rest.map Prod.fst
      · simp [insertUid, hk, hj, hjk, ih]
      · simp [insertUid, hk, hj, hjk, ih]

theorem keysNodup_insertUid (m : List (String × List String)) (j u : String)
    (h : keysNodup m) : keysNodup (insertUid m j u) := by
  unfold keysNodup at h ⊢
  rw [keys_insertUid]
  by_cases hj : j ∈ m.map Prod.fst
  · simp [hj, h]
  · simp [hj, h, List.nodup_append]

theorem keys_removeUid_sublist (m : List (String × List String)) (j u : String) :
    ((removeUid m j u).map Prod.fst).Sublist (m.map Prod.fst) := by
  induction m with
  | nil => simp [removeUid]
  | cons kv rest ih =>
    by_cases hk : kv.fst == j
    · by_cases hc : kv.snd.contains u
      · by_cases hempty : (kv.snd.filter (fun v => !(v == u))).isEmpty
        · simp only [removeUid, hk, hc, hempty, if_true]
          exact (List.Sublist.refl _).cons _
        · simp only [removeUid, hk, hc, hempty, Bool.false_eq_true, if_true, if_false]
          simp
      · simp only [removeUid, hk, hc, Bool.false_eq_true, if_true, if_false]
        simp
    · simp only [removeUid, hk, Bool.false_eq_true, if_false, List.map_cons]
      exact ih.cons₂ kv.fst

theorem keysNodup_removeUid (m : List (String × List String)) (j u : String)
    (h : keysNodup m) : keysNodup (removeUid m j u) :=
  List.Nodup.sublist (keys_removeUid_sublist m j u) h

theorem pairCount_pos (s : JoggerSt) (p : DlTask) (h : pairCount s p ≠ 0) :
    p ∈ s.chan ∨ s.current = some p := by
  unfold pairCount at h
  by_cases hc : (s.chan.filter (fun t => decide (t = p))).length = 0
  · right
    rw [hc] at h
    cases hcur : s.current with
    | none => rw [hcur] at h; simp at h
    | some t =>
      rw [hcur] at h
      by_cases ht : t = p
      · rw [← ht]
      · simp [ht] at h
  · left
    have hne : s.chan.filter (fun t => decide (t = p)) ≠ [] := by
      intro hh
      rw [hh] at hc
      exact hc rfl
    obtain ⟨x, hx⟩ := List.exists_mem_of_ne_nil _ hne
    have hm := List.mem_filter.mp hx
    have hxp : x = p := of_decide_eq_true hm.2
    exact hxp ▸ hm.1

/-- The well-formedness invariant of the jogger subsystem that holds along
every abort-free execution: the queue map has Go-map key uniqueness, every
queued or in-flight task still has its pair in the set while the queue is
live, and no pair occurs more than once among the queued and in-flight
tasks. -/
def GoodSt (s : JoggerSt) : Prop :=
  keysNodup s.q.m ∧
  (s.q.stopped = false → ∀ t : DlTask, (t ∈ s.chan ∨ s.current = some t) →
      s.q.existsTask t.jobID t.uid = true) ∧
  (∀ p : DlTask, pairCount s p ≤ 1)

theorem jstep_preserves_GoodSt (s : JoggerSt) (ev : JEv) (hg : GoodSt s)
    (hev : ∀ id, ev ≠ JEv.abortJob id) : GoodSt (jstep s ev) := by
  obtain ⟨hnd, hmem, hcnt⟩ := hg
  cases ev with
  | put t =>
    show GoodSt (joggerPut s t)
    by_cases hadm : (s.q.stopped || s.q.existsTask t.jobID t.uid) = true
    · have heq : joggerPut s t = s := by
        simp [joggerPut, DlQueue.putCh, hadm]
      rw [heq]
      exact ⟨hnd, hmem, hcnt⟩
    · have h0 : (s.q.stopped || s.q.existsTask t.jobID t.uid) = false :=
        Bool.eq_false_iff.mpr hadm
      have hs : s.q.stopped = false := (Bool.or_eq_false_iff.mp h0).1
      have he : s.q.existsTask t.jobID t.uid = false := (Bool.or_eq_false_iff.mp h0).2
      have heq : joggerPut s t =
          { s with q := { s.q with m := insertUid s.q.m t.jobID t.uid },
                   chan := s.chan ++ [t], pending := s.pending + 1 } := by
        simp [joggerPut, DlQueue.putCh, h0]
      rw [heq]
      refine ⟨keysNodup_insertUid s.q.m t.jobID t.uid hnd, ?_, ?_⟩
      · intro hs' t' hmem'
        rcases hmem' with hmem' | hmem'
        · rcases List.mem_append.mp hmem' with hold | hnew
          · exact existsTask_insertUid_mono s.q t.jobID t.uid t'.jobID t'.uid
              (hmem hs t' (Or.inl hold))
          · have : t' = t := by simpa using hnew
            subst this
            exact existsTask_insertUid_self s.q t'.jobID t'.uid
        · exact existsTask_insertUid_mono s.q t.jobID t.uid t'.jobID t'.uid
            (hmem hs t' (Or.inr hmem'))
      · intro p
        have hold := hcnt p
        unfold pairCount at hold ⊢
        dsimp only
        simp only [List.filter_append, List.length_append]
        by_cases hp : t = p
        · subst hp
          have hzero : pairCount s t = 0 := by
            by_contra hnz
            rcases pairCount_pos s t hnz with hin | hin
            · rw [hmem hs t (Or.inl hin)] at he
              exact Bool.noConfusion he
            · rw [hmem hs t (Or.inr hin)] at he
              exact Bool.noConfusion he
          unfold pairCount at hzero
          simp only [List.filter, decide_True, List.length_cons, List.length_nil]
          omega
        · simp only [List.filter, hp, decide_False, List.length_nil]
          omega
  | dequeue =>
    show GoodSt (jstep s JEv.dequeue)
    cases hcur : s.current with
    | some t =>
      have heq : jstep s JEv.dequeue = s := by
        simp [jstep, hcur]
      rw [heq]
      exact ⟨hnd, hmem, hcnt⟩
    | none =>
      cases hchan : s.chan with
      | nil =>
        have heq : jstep s JEv.dequeue = s := by
          simp [jstep, hcur, hchan]
        rw [heq]
        exact ⟨hnd, hmem, hcnt⟩
      | cons t rest =>
        by_cases hacc : s.q.existsTask t.jobID t.uid = true
        · have heq : jstep s JEv.dequeue = { s with chan := rest, current := some t } := by
            simp [jstep, hcur, hchan, hacc]
          rw [heq]
          refine ⟨hnd, ?_, ?_⟩
          · intro hs' t' hmem'
            rcases hmem' with hmem' | hmem'
            · exact hmem hs' t' (Or.inl (by rw [hchan]; exact List.mem_cons_of_mem _ hmem'))
            · have : t' = t := by simpa using hmem'.symm
              subst this
              exact hmem hs' t' (Or.inl (by rw [hchan]; exact List.mem_cons_self _ _))
          · intro p
            have hold := hcnt p
            unfold pairCount at hold ⊢
            rw [hchan, hcur] at hold
            by_cases hp : t = p
            · simp only [List.filter_cons, hp, decide_True, if_true, List.length_cons,
                if_pos rfl] at hold ⊢
              omega
            · simp only [List.filter_cons, hp, decide_False, Bool.false_eq_true, if_false,
                if_neg hp] at hold ⊢
              omega
        · have heq : jstep s JEv.dequeue = { s with chan := rest } := by
            simp [jstep, hcur, hchan, hacc]
          rw [heq]
          refine ⟨hnd, ?_, ?_⟩
          · intro hs' t' hmem'
            rcases hmem' with hmem' | hmem'
            · exact hmem hs' t' (Or.inl (by rw [hchan]; exact List.mem_cons_of_mem _ hmem'))
            · rw [hcur] at hmem'
              exact Option.noConfusion hmem'
          · intro p
            have hold := hcnt p
            unfold pairCount at hold
            rw [hchan, hcur] at hold
            have hold2 : ((t :: rest).filter (fun x => decide (x = p))).length + 0 ≤ 1 :=
              hold
            show (rest.filter (fun x => decide (x = p))).length +
                (match s.current with
                 | some x => if x = p then 1 else 0 | none => 0) ≤ 1
            rw [hcur]
            show (rest.filter (fun x => decide (x = p))).length + 0 ≤ 1
            rw [List.filter_cons] at hold2
            by_cases hp : t = p
            · simp only [hp, decide_True, if_true, List.length_cons] at hold2
              omega
            · simp only [hp, decide_False, Bool.false_eq_true, if_false] at hold2
              omega
  | complete =>
    show GoodSt (jstep s JEv.complete)
    cases hcur : s.current with
    | none =>
      have heq : jstep s JEv.complete = s := by
        simp [jstep, hcur]
      rw [heq]
      exact ⟨hnd, hmem, hcnt⟩
    | some t =>
      have heq : jstep s JEv.complete =
          { s with current := none, q := s.q.removeFromSet t.jobID t.uid,
                   pending := if s.q.existsTask t.jobID t.uid then s.pending - 1
                              else s.pending } := by
        simp [jstep, hcur]
      rw [heq]
      refine ⟨keysNodup_removeUid s.q.m t.jobID t.uid hnd, ?_, ?_⟩
      · intro hs' t' hmem'
        rcases hmem' with hmem' | hmem'
        · have hne : t' ≠ t := by
            intro hh
            subst hh
            have := hcnt t'
            unfold pairCount at this
            rw [hcur] at this
            have hpos : 0 < (s.chan.filter (fun x => decide (x = t'))).length := by
              apply List.length_pos_of_mem
              exact List.mem_filter.mpr ⟨hmem', by simp⟩
            simp only [if_pos rfl, if_true] at this
            omega
          have hpair : t'.jobID ≠ t.jobID ∨ t'.uid ≠ t.uid := by
            by_contra hcon
            push_neg at hcon
            apply hne
            cases t'
            cases t
            simp only at hcon
            simp [hcon.1, hcon.2]
          rw [show (s.q.removeFromSet t.jobID t.uid) =
              ({ s.q with m := removeUid s.q.m t.jobID t.uid } : DlQueue) from rfl]
          rw [existsTask_removeUid_other s.q t.jobID t.uid t'.jobID t'.uid hnd hpair]
          exact hmem hs' t' (Or.inl hmem')
        · exact Option.noConfusion hmem'
      · intro p
        have := hcnt p
        unfold pairCount at this ⊢
        rw [hcur] at this
        simp only
        omega
  | abortJob id => exact absurd rfl (hev id)
  | stop =>
    show GoodSt (jstep s JEv.stop)
    have heq : jstep s JEv.stop = { s with q := { stopped := true, m := [] } } := by
      simp [jstep]
    rw [heq]
    refine ⟨by simp [keysNodup], ?_, ?_⟩
    · intro hs'
      exact absurd hs' (by simp)
    · intro p
      have := hcnt p
      unfold pairCount at this ⊢
      simpa using this

theorem GoodSt_jrun (s : JoggerSt) (evs : List JEv) (hg : GoodSt s)
    (hno : ∀ id, JEv.abortJob id ∉ evs) : GoodSt (jrun s evs) := by
  induction evs generalizing s with
  | nil => exact hg
  | cons e rest ih =>
    have hev : ∀ id, e ≠ JEv.abortJob id := by
      intro id hid
      exact hno id (by rw [hid]; exact List.mem_cons_self _ _)
    have h1 : GoodSt (jstep s e) := jstep_preserves_GoodSt s e hg hev
    have hno' : ∀ id, JEv.abortJob id ∉ rest := by
      intro id hmem'
      exact hno id (List.mem_cons_of_mem _ hmem')
    exact ih (jstep s e) h1 hno'

theorem GoodSt_jinit : GoodSt jinit := by
  refine ⟨by simp [jinit, keysNodup], ?_, ?_⟩
  · intro _ t hmem'
    rcases hmem' with hmem' | hmem'
    · exact absurd hmem' (by simp [jinit])
    · exact Option.noConfusion hmem'
  · intro p
    simp [jinit, pairCount]

/-- C6 counterexample: submit ("j","u"), let the jogger start it, abort job
"j", and submit ("j","u") again. abortJob removed the pair from the set while
the first task was still in flight, so the second submission is admitted:
two tasks with the same (job id, uid) pair are queued or in flight at once. -/
theorem jogger_abort_readmission_counterexample :
    pairCount
      (jrun jinit
        [JEv.put { jobID := "j", uid := "u" }, JEv.dequeue,
         JEv.abortJob "j", JEv.put { jobID := "j", uid := "u" }])
      { jobID := "j", uid := "u" } = 2 := by
  decide

/-- C6 amended: along any execution in which abortJob is never invoked, at
most one task with a given (job id, uid) pair is queued or in flight at any
instant; moreover while the queue is live, every queued or in-flight task
still has its pair in the set, so a second submission with that pair is
handed the sink channel (not admitted). -/
theorem jogger_pair_unique_no_abort (evs : List JEv)
    (hno : ∀ id, JEv.abortJob id ∉ evs) (p : DlTask) :
    pairCount (jrun jinit evs) p ≤ 1 ∧
    ((jrun jinit evs).q.stopped = false →
      (p ∈ (jrun jinit evs).chan ∨ (jrun jinit evs).current = some p) →
      ((jrun jinit evs).q.putCh p).fst = false) := by
  have hg := GoodSt_jrun jinit evs GoodSt_jinit hno
  refine ⟨hg.2.2 p, ?_⟩
  intro hs hmem
  have he := hg.2.1 hs p hmem
  simp [DlQueue.putCh, he]

/-- Witness for jogger_pair_unique_no_abort: after a submission and a
dequeue, the pair ("j","u") occurs once and a duplicate submission is handed
the sink channel. -/
theorem jogger_pair_unique_no_abort_witness :
    pairCount
      (jrun jinit [JEv.put { jobID := "j", uid := "u" }, JEv.dequeue])
      { jobID := "j", uid := "u" } ≤ 1 ∧
    ((jrun jinit [JEv.put { jobID := "j", uid := "u" }, JEv.dequeue]).q.putCh
      { jobID := "j", uid := "u" }).fst = false := by
  have h := jogger_pair_unique_no_abort
    [JEv.put { jobID := "j", uid := "u" }, JEv.dequeue]
    (by
      intro id hmem
      simp at hmem)
    { jobID := "j", uid := "u" }
  exact ⟨h.1, h.2 (by decide) (Or.inr (by decide))⟩

theorem removeJobM_fst (m : List (String × List String)) (j : String) :
    (removeJobM m j).fst =
      match lookupJob m j with | none => 0 | some l => l.length := by
  induction m with
  | nil => rfl
  | cons kv rest ih =>
    by_cases hk : kv.fst == j
    · simp [removeJobM, lookupJob, hk]
    · simp [removeJobM, lookupJob, hk, ih]

theorem lookupJob_removeJobM_ne (m : List (String × List String)) (j x : String)
    (h : x ≠ j) : lookupJob (removeJobM m j).snd x = lookupJob m x := by
  induction m with
  | nil => rfl
  | cons kv rest ih =>
    by_cases hk : kv.fst == j
    · have hkx : (kv.fst == x) = false := by
        have hkj : kv.fst = j := beq_iff_eq.mp hk
        apply Bool.eq_false_iff.mpr
        intro hkx
        exact h ((beq_iff_eq.mp hkx).symm.trans hkj)
      simp [removeJobM, hk, lookupJob, hkx]
    · by_cases hx : kv.fst == x
      · simp [removeJobM, hk, hx, lookupJob]
      · simp [removeJobM, hk, hx, lookupJob, ih]

theorem lookupJob_removeJobM_self (m : List (String × List String)) (j : String)
    (hnd : keysNodup m) : lookupJob (removeJobM m j).snd j = none := by
  induction m with
  | nil => rfl
  | cons kv rest ih =>
    have hnd' : keysNodup rest := by
      simp only [keysNodup, List.map_cons, List.nodup_cons] at hnd
      exact hnd.2
    by_cases hk : kv.fst == j
    · have hkj : kv.fst = j := beq_iff_eq.mp hk
      simp only [removeJobM, hk, if_true]
      apply lookupJob_none_of_not_mem_keys
      simp only [keysNodup, List.map_cons, List.nodup_cons] at hnd
      rw [hkj] at hnd
      exact hnd.1
    · simp [removeJobM, hk, lookupJob, ih hnd']

/-- C7: abortJob removes every entry of the given job from the queue set
(leaving other jobs untouched), subtracts exactly the number of removed
entries from the downloader pending count, does not touch the channel or the
current-task slot, and invokes the cancel handle exactly when the current
task belongs to the job. A stopped queue has been emptied by cleanup, and
the map has Go-map key uniqueness. -/
theorem abortJob_spec (s : JoggerSt) (id : String)
    (hwf : s.q.stopped = true → s.q.m = []) (hnd : keysNodup s.q.m) :
    (∀ u, (joggerAbortJob s id).fst.q.existsTask id u = false) ∧
    (∀ j, j ≠ id →
      lookupJob (joggerAbortJob s id).fst.q.m j = lookupJob s.q.m j) ∧
    (joggerAbortJob s id).fst.pending =
      s.pending - Int.ofNat (s.q.countJob id) ∧
    (joggerAbortJob s id).fst.chan = s.chan ∧
    (joggerAbortJob s id).fst.current = s.current ∧
    ((joggerAbortJob s id).snd = true ↔
      ∃ t, s.current = some t ∧ t.jobID = id) := by
  have hcancel : ((joggerAbortJob s id).snd = true ↔
      ∃ t, s.current = some t ∧ t.jobID = id) := by
    simp only [joggerAbortJob]
    cases hcur : s.current with
    | none => simp
    | some t => simp [beq_iff_eq]
  by_cases hs : s.q.stopped = true
  · have hm : s.q.m = [] := hwf hs
    have hr : s.q.removeJob id = (0, s.q) := by
      simp [DlQueue.removeJob, hs]
    refine ⟨?_, ?_, ?_, rfl, rfl, hcancel⟩
    · intro u
      simp [joggerAbortJob, hr, DlQueue.existsTask, hm, lookupJob]
    · intro j hj
      simp [joggerAbortJob, hr]
    · simp [joggerAbortJob, hr, DlQueue.countJob, hm, lookupJob]
  · have hs' : s.q.stopped = false := Bool.eq_false_iff.mpr hs
    have hr : s.q.removeJob id =
        ((removeJobM s.q.m id).fst, { s.q with m := (removeJobM s.q.m id).snd }) := by
      simp [DlQueue.removeJob, hs']
    refine ⟨?_, ?_, ?_, rfl, rfl, hcancel⟩
    · intro u
      simp only [joggerAbortJob, hr]
      simp only [DlQueue.existsTask]
      rw [lookupJob_removeJobM_self s.q.m id hnd]
    · intro j hj
      simp only [joggerAbortJob, hr]
      exact lookupJob_removeJobM_ne s.q.m id j hj
    · simp only [joggerAbortJob, hr, DlQueue.countJob]
      rw [removeJobM_fst]

/-- Witness for abortJob_spec: aborting job "j" in a queue holding two "j"
entries and one "k" entry while a "j" task is running removes both entries,
subtracts two from pending, leaves "k" alone, and cancels the running task. -/
theorem abortJob_spec_witness :
    (joggerAbortJob
      { q := { stopped := false, m := [("j", ["u", "v"]), ("k", ["w"])] }, chan := [],
        current := some { jobID := "j", uid := "x" }, pending := 3 } "j").fst.q.existsTask
      "j" "u" = false ∧
    lookupJob
      (joggerAbortJob
        { q := { stopped := false, m := [("j", ["u", "v"]), ("k", ["w"])] }, chan := [],
          current := some { jobID := "j", uid := "x" }, pending := 3 } "j").fst.q.m
      "k" = some ["w"] ∧
    (joggerAbortJob
      { q := { stopped := false, m := [("j", ["u", "v"]), ("k", ["w"])] }, chan := [],
        current := some { jobID := "j", uid := "x" }, pending := 3 } "j").fst.pending =
      1 ∧
    (joggerAbortJob
      { q := { stopped := false, m := [("j", ["u", "v"]), ("k", ["w"])] }, chan := [],
        current := some { jobID := "j", uid := "x" }, pending := 3 } "j").snd = true := by
  have h := abortJob_spec
    { q := { stopped := false, m := [("j", ["u", "v"]), ("k", ["w"])] }, chan := [],
      current := some { jobID := "j", uid := "x" }, pending := 3 }
    "j" (by decide) (by unfold keysNodup; decide)
  refine ⟨h.1 "u", ?_, ?_, ?_⟩
  · rw [h.2.1 "k" (by decide)]
    decide
  · rw [h.2.2.1]
    decide
  · exact h.2.2.2.2.2.mpr ⟨{ jobID := "j", uid := "x" }, rfl, rfl⟩

/-- C10: RegisterFileType returns an error and leaves the registered set
unchanged when the type contains a dot or is already registered; otherwise
it registers the type and returns nil. -/
theorem registerFileType_spec (reg : List Str) (ft : Str) :
    (('.' ∈ ft ∨ ft ∈ reg) →
      (RegisterFileType reg ft).fst.isSome = true ∧
      (RegisterFileType reg ft).snd = reg) ∧
    ('.' ∉ ft → ft ∉ reg →
      (RegisterFileType reg ft).fst = none ∧
      (RegisterFileType reg ft).snd = reg ++ [ft]) := by
  constructor
  · intro h
    rcases h with h | h
    · simp [RegisterFileType, h]
    · by_cases hd : '.' ∈ ft
      · simp [RegisterFileType, hd]
      · simp [RegisterFileType, hd, h]
  · intro h1 h2
    simp [RegisterFileType, h1, h2]

/-- Witness for registerFileType_spec: a type with a dot is rejected, a
duplicate is rejected, and a fresh dot-free type is registered. -/
theorem registerFileType_spec_witness :
    ((RegisterFileType [['a']] ['a', '.', 'b']).fst.isSome = true ∧
     (RegisterFileType [['a']] ['a', '.', 'b']).snd = [['a']]) ∧
    ((RegisterFileType [['a']] ['a']).fst.isSome = true ∧
     (RegisterFileType [['a']] ['a']).snd = [['a']]) ∧
    ((RegisterFileType [['a']] ['b']).fst = none ∧
     (RegisterFileType [['a']] ['b']).snd = [['a'], ['b']]) := by
  have h1 := (registerFileType_spec [['a']] ['a', '.', 'b']).1 (Or.inl (by decide))
  have h2 := (registerFileType_spec [['a']] ['a']).1 (Or.inr (by decide))
  have h3 := (registerFileType_spec [['a']] ['b']).2 (by decide) (by decide)
  exact ⟨h1, h2, h3⟩

/-! Helper lemmas for the workfile fqn round trip. -/

theorem splitOnFirst_append (c : Char) (a b : Str) (h : c ∉ a) :
    splitOnFirst c (a ++ c :: b) = some (a, b) := by
  induction a with
  | nil => simp [splitOnFirst]
  | cons x rest ih =>
    simp only [List.mem_cons, not_or] at h
    have hxc : ¬ x = c := fun hh => h.1 hh.symm
    simp [splitOnFirst, hxc, ih h.2]

theorem splitOnLast_append (c : Char) (a b : Str) (h : c ∉ b) :
    splitOnLast c (a ++ c :: b) = some (a, b) := by
  unfold splitOnLast
  have hrev : (a ++ c :: b).reverse = b.reverse ++ c :: a.reverse := by
    simp [List.reverse_append]
  rw [hrev, splitOnFirst_append c _ _ (by simpa using h)]
  simp

theorem splitPath_append (d b : Str) (h : '/' ∉ b) :
    splitPath (d ++ '/' :: b) = (d ++ ['/'], b) := by
  unfold splitPath
  rw [splitOnLast_append '/' d b h]

theorem exists_concat_of_getLast? (l : Str) (c : Char) (h : l.getLast? = some c) :
    ∃ t, l = t ++ [c] := by
  induction l with
  | nil => exact Option.noConfusion h
  | cons x rest ih =>
    cases hr : rest with
    | nil =>
      subst hr
      simp only [List.getLast?_singleton, Option.some.injEq] at h
      exact ⟨[], by simp [h]⟩
    | cons y ys =>
      subst hr
      rw [List.getLast?_cons_cons] at h
      obtain ⟨t, ht⟩ := ih h
      exact ⟨x :: t, by simp [ht]⟩

theorem parseHexDigit_hexDigitChar (d : Nat) (h : d < 16) :
    parseHexDigit (hexDigitChar d) = some d := by
  interval_cases d <;> decide

theorem hexDigitChar_props (d : Nat) (h : d < 16) :
    hexDigitChar d ≠ '.' ∧ hexDigitChar d ≠ '/' ∧ hexDigitChar d ≠ '-' ∧
      hexDigitChar d ≠ '+' := by
  interval_cases d <;> decide

theorem formatHexCore_ne_nil (n : Nat) (h : n ≠ 0) : formatHexCore n ≠ [] := by
  rw [formatHexCore]
  simp [h]

theorem mem_formatHexCore (n : Nat) (c : Char) (h : c ∈ formatHexCore n) :
    ∃ d, d < 16 ∧ c = hexDigitChar d := by
  induction n using Nat.strong_induction_on with
  | _ n ih =>
    by_cases h0 : n = 0
    · subst h0
      rw [formatHexCore] at h
      simp at h
    · rw [formatHexCore] at h
      simp only [h0, if_false, List.mem_append, List.mem_singleton] at h
      rcases h with h | h
      · exact ih (n / 16) (Nat.div_lt_self (Nat.pos_of_ne_zero h0) (by norm_num)) h
      · exact ⟨n % 16, Nat.mod_lt _ (by norm_num), h⟩

theorem mem_formatHex (n : Nat) (c : Char) (h : c ∈ formatHex n) :
    c ≠ '.' ∧ c ≠ '/' ∧ c ≠ '-' ∧ c ≠ '+' := by
  unfold formatHex at h
  by_cases h0 : n = 0
  · simp only [h0, if_true] at h
    have : c = '0' := by simpa using h
    subst this
    decide
  · simp only [h0, if_false] at h
    obtain ⟨d, hd, hc⟩ := mem_formatHexCore n c h
    subst hc
    exact hexDigitChar_props d hd

theorem parseHexCore_append (a b : Str) (acc : Nat) :
    parseHexCore (a ++ b) acc =
      match parseHexCore a acc with
      | none => none
      | some v => parseHexCore b v := by
  induction a generalizing acc with
  | nil => rfl
  | cons c rest ih =>
    simp only [List.cons_append, parseHexCore]
    cases hc : parseHexDigit c with
    | none => rfl
    | some d => exact ih _

theorem parseHexCore_formatHexCore (n : Nat) : ∀ acc : Nat,
    parseHexCore (formatHexCore n) acc =
      some (acc * 16 ^ (formatHexCore n).length + n) := by
  induction n using Nat.strong_induction_on with
  | _ n ih =>
    intro acc
    by_cases h0 : n = 0
    · subst h0
      rw [formatHexCore]
      simp [parseHexCore]
    · rw [formatHexCore]
      simp only [h0, if_false]
      rw [parseHexCore_append]
      rw [ih (n / 16) (Nat.div_lt_self (Nat.pos_of_ne_zero h0) (by norm_num)) acc]
      simp only [parseHexCore, parseHexDigit_hexDigitChar (n % 16) (Nat.mod_lt _ (by norm_num))]
      rw [List.length_append, List.length_singleton]
      congr 1
      have hdm : 16 * (n / 16) + n % 16 = n := Nat.div_add_mod n 16
      calc (acc * 16 ^ (formatHexCore (n / 16)).length + n / 16) * 16 + n % 16
          = acc * (16 ^ (formatHexCore (n / 16)).length * 16) +
              (16 * (n / 16) + n % 16) := by ring
        _ = acc * 16 ^ ((formatHexCore (n / 16)).length + 1) + n := by
              rw [hdm, pow_succ]

theorem parseHexNat_formatHex (n : Nat) (h0 : 0 < n) (hb : n < 2 ^ 63) :
    parseHexNat (formatHex n) = some n := by
  have hne : formatHexCore n ≠ [] := formatHexCore_ne_nil n (Nat.pos_iff_ne_zero.mp h0)
  have hr := parseHexCore_formatHexCore n 0
  unfold formatHex
  rw [if_neg (Nat.pos_iff_ne_zero.mp h0)]
  cases hl : formatHexCore n with
  | nil => exact absurd hl hne
  | cons c rest =>
    rw [hl] at hr
    simp only [parseHexNat]
    rw [hr]
    simp only [Nat.zero_mul, Nat.zero_add]
    rw [if_pos hb]

theorem parseHexInt_formatHex (n : Nat) (h0 : 0 < n) (hb : n < 2 ^ 63) :
    parseHexInt (formatHex n) = some (n : Int) := by
  have hsign : ∀ c, (formatHex n).head? = some c → c ≠ '-' ∧ c ≠ '+' := by
    intro c hc
    have hmem : c ∈ formatHex n := by
      cases hfl : formatHex n with
      | nil => rw [hfl] at hc; exact Option.noConfusion hc
      | cons x xs =>
        rw [hfl] at hc
        simp only [List.head?_cons, Option.some.injEq] at hc
        rw [← hc]
        exact List.mem_cons_self _ _
    have := mem_formatHex n c hmem
    exact ⟨this.2.2.1, this.2.2.2⟩
  unfold parseHexInt
  cases hfl : (formatHex n).head? with
  | none =>
    rw [if_neg (by simp), if_neg (by simp), parseHexNat_formatHex n h0 hb]
    rfl
  | some c =>
    have hc := hsign c hfl
    rw [if_neg (by simp [hc.1]), if_neg (by simp [hc.2]), parseHexNat_formatHex n h0 hb]
    rfl

theorem isPrefixOf_append_self (p r : Str) : p.isPrefixOf (p ++ r) = true := by
  induction p with
  | nil =>
    cases r with
    | nil => rfl
    | cons x xs => rfl
  | cons x rest ih => simp [List.isPrefixOf, ih]

/-- C8 amended: for every path made of a directory part and a non-empty,
slash-free base name, and every registered workfile type containing neither a
dot (RegisterFileType enforces this) nor a slash (it does not enforce this -
see the counterexample), FileSpec applied to GenContentFQN recovers the
original directory, base name and type; the parsed old flag is true exactly
when the pid encoded by the generating process differs from the pid of the
parsing process, hence false when the same process parses its own workfile.
The tiebreaker is any dot-free, slash-free string, as produced by the hex
clock. -/
theorem genContentFQN_fileSpec_roundtrip
    (reg : List Str) (dir base ty tie : Str) (curPid : Nat) (pid2 : Int)
    (hdir : dir.getLast? = some '/')
    (hbase : base ≠ []) (hbs : '/' ∉ base)
    (htyd : '.' ∉ ty) (htys : '/' ∉ ty) (htyr : ty ∈ reg)
    (htied : '.' ∉ tie) (hties : '/' ∉ tie)
    (hp0 : 0 < curPid) (hpb : curPid < 2 ^ 63) :
    GenContentFQN reg (formatHex curPid) tie (dir ++ base) ty =
      some (dir ++ wfPre ++ ty ++ '.' :: genUniqueFQN base tie (formatHex curPid)) ∧
    FileSpec reg pid2
      (dir ++ wfPre ++ ty ++ '.' :: genUniqueFQN base tie (formatHex curPid)) =
      some { dir := dir, base := base, old := decide ((curPid : Int) ≠ pid2), ty := ty } ∧
    FileSpec reg (curPid : Int)
      (dir ++ wfPre ++ ty ++ '.' :: genUniqueFQN base tie (formatHex curPid)) =
      some { dir := dir, base := base, old := false, ty := ty } := by
  obtain ⟨d0, hd0⟩ := exists_concat_of_getLast? dir '/' hdir
  have hdotspid : ('.' : Char) ∉ formatHex curPid := by
    intro hm
    exact (mem_formatHex curPid '.' hm).1 rfl
  have hspid : ('/' : Char) ∉ formatHex curPid := by
    intro hm
    exact (mem_formatHex curPid '/' hm).2.1 rfl
  have hsplit1 : splitPath (dir ++ base) = (dir, base) := by
    rw [hd0]
    rw [show (d0 ++ ['/']) ++ base = d0 ++ '/' :: base by
      rw [List.append_assoc, List.singleton_append]]
    exact splitPath_append d0 base hbs
  have hgen : GenContentFQN reg (formatHex curPid) tie (dir ++ base) ty =
      some (dir ++ wfPre ++ ty ++ '.' :: genUniqueFQN base tie (formatHex curPid)) := by
    simp only [GenContentFQN, hsplit1]
    simp [hdir, hbase, htyr]
  have hsg : ('/' : Char) ∉
      wfPre ++ (ty ++ '.' :: genUniqueFQN base tie (formatHex curPid)) := by
    intro hmem
    rw [List.mem_append] at hmem
    rcases hmem with hm | hmem
    · simp [wfPre] at hm
    · rw [List.mem_append] at hmem
      rcases hmem with hm | hmem
      · exact htys hm
      · rw [List.mem_cons] at hmem
        rcases hmem with hm | hmem
        · exact absurd hm (by decide)
        · unfold genUniqueFQN at hmem
          rw [List.mem_append] at hmem
          rcases hmem with hm | hmem
          · exact hbs hm
          · rw [List.mem_cons] at hmem
            rcases hmem with hm | hmem
            · exact absurd hm (by decide)
            · rw [List.mem_append] at hmem
              rcases hmem with hm | hmem
              · exact hties hm
              · rw [List.mem_cons] at hmem
                rcases hmem with hm | hmem
                · exact absurd hm (by decide)
                · exact hspid hmem
  have hsplit2 : splitPath
      (dir ++ (wfPre ++ (ty ++ '.' :: genUniqueFQN base tie (formatHex curPid)))) =
      (dir, wfPre ++ (ty ++ '.' :: genUniqueFQN base tie (formatHex curPid))) := by
    rw [hd0]
    rw [show (d0 ++ ['/']) ++
          (wfPre ++ (ty ++ '.' :: genUniqueFQN base tie (formatHex curPid))) =
        d0 ++ '/' :: (wfPre ++ (ty ++ '.' :: genUniqueFQN base tie (formatHex curPid))) by
      rw [List.append_assoc, List.singleton_append]]
    exact splitPath_append d0 _ hsg
  have hw : dir ++ wfPre ++ ty ++ '.' :: genUniqueFQN base tie (formatHex curPid) =
      dir ++ (wfPre ++ (ty ++ '.' :: genUniqueFQN base tie (formatHex curPid))) := by
    simp [List.append_assoc]
  have hFS : ∀ p2 : Int,
      FileSpec reg p2
        (dir ++ wfPre ++ ty ++ '.' :: genUniqueFQN base tie (formatHex curPid)) =
        some { dir := dir, base := base, old := decide ((curPid : Int) ≠ p2),
               ty := ty } := by
    intro p2
    have hparse2 : ParseUniqueFQN p2 (genUniqueFQN base tie (formatHex curPid)) =
        some (base, decide ((curPid : Int) ≠ p2)) := by
      unfold ParseUniqueFQN genUniqueFQN
      rw [show base ++ '.' :: (tie ++ '.' :: formatHex curPid) =
          (base ++ '.' :: tie) ++ '.' :: formatHex curPid by simp]
      simp only [splitOnLast_append '.' (base ++ '.' :: tie) (formatHex curPid) hdotspid,
        splitOnLast_append '.' base tie htied,
        parseHexInt_formatHex curPid hp0 hpb]
    have hdrop : (wfPre ++ (ty ++ '.' :: genUniqueFQN base tie (formatHex curPid))).drop 5 =
        ty ++ '.' :: genUniqueFQN base tie (formatHex curPid) := by
      rw [show (5 : Nat) = wfPre.length from rfl]
      exact List.drop_left _ _
    rw [hw]
    simp only [FileSpec, hsplit2]
    simp only [hdir, if_true, hdrop,
      isPrefixOf_append_self wfPre (ty ++ '.' :: genUniqueFQN base tie (formatHex curPid)),
      splitOnFirst_append '.' ty (genUniqueFQN base tie (formatHex curPid)) htyd,
      htyr, hparse2]
  refine ⟨hgen, hFS pid2, ?_⟩
  rw [hFS (curPid : Int)]
  have hdec : decide ((curPid : Int) ≠ (curPid : Int)) = false :=
    decide_eq_false (by simp)
  rw [hdec]

/-- Witness for genContentFQN_fileSpec_roundtrip: a workfile generated by
pid 7 under type "wk" parses back to (dir "d/", base "x", type "wk"); a
process with pid 9 sees it as old, pid 7 itself does not. -/
theorem genContentFQN_fileSpec_roundtrip_witness :
    GenContentFQN [("wk".toList)] (formatHex 7) ("f".toList)
      (("d/".toList) ++ ("x".toList)) ("wk".toList) =
      some (("d/".toList) ++ wfPre ++ ("wk".toList) ++ '.' ::
        genUniqueFQN ("x".toList) ("f".toList) (formatHex 7)) ∧
    FileSpec [("wk".toList)] 9
      (("d/".toList) ++ wfPre ++ ("wk".toList) ++ '.' ::
        genUniqueFQN ("x".toList) ("f".toList) (formatHex 7)) =
      some { dir := "d/".toList, base := "x".toList, old := true,
             ty := "wk".toList } ∧
    FileSpec [("wk".toList)] 7
      (("d/".toList) ++ wfPre ++ ("wk".toList) ++ '.' ::
        genUniqueFQN ("x".toList) ("f".toList) (formatHex 7)) =
      some { dir := "d/".toList, base := "x".toList, old := false,
             ty := "wk".toList } := by
  have h := genContentFQN_fileSpec_roundtrip [("wk".toList)] ("d/".toList)
    ("x".toList) ("wk".toList) ("f".toList) 7 9 (by decide) (by decide) (by decide)
    (by decide) (by decide) (by decide) (by decide) (by decide) (by decide) (by decide)
  exact ⟨h.1, h.2.1, h.2.2⟩

/-- C8 counterexample: RegisterFileType accepts the type "a/b" (it only
rejects dots), but the round trip then fails for it: the generated workfile
name embeds the slash, filepath.Split splits the fqn at that slash, the base
no longer starts with the workfile marker, and FileSpec recognizes nothing -
instead of recovering directory "d/", base "x" and the type. -/
theorem fileSpec_slash_type_counterexample :
    RegisterFileType [] ("a/b".toList) = (none, [("a/b".toList)]) ∧
    GenContentFQN [("a/b".toList)] ("7".toList) ("f".toList) ("d/x".toList)
      ("a/b".toList) = some ("d/.~~~.a/b.x.f.7".toList) ∧
    FileSpec [("a/b".toList)] 7 ("d/.~~~.a/b.x.f.7".toList) = none := by
  refine ⟨by decide, by decide, by decide⟩

end AIStore
